import Mathlib

/-!
# Verification of the compiled declarative layout and render engine (`tui`)

Shallow embedding of the core compile/execute pipeline of the terminal-UI
template engine: the flat op representation built by `Build`, the three
layout phases (`distributeWidths`, `layout`, `distributeFlexGrow`) and the
render walks (`renderOp`, `renderSubOp`), together with `Height`.

Modelling conventions:
* Go `int16` quantities are modelled as `Int` (screen geometry stays far from
  the 2^15 overflow boundary, so wrap-around is not modelled).
* Go `float32` quantities (`FlexGrow`, `PercentWidth`, flex shares) are
  modelled as exact rationals `ℚ`; the Go conversion `int16(float32 expr)`
  (truncation toward zero) is modelled by `i16trunc` over `ℚ`.
* Go pointers into caller-owned state are modelled as `Nat` addresses read
  through an explicit environment `Env`; Go's unsafe element-base pointer
  arithmetic `base + off` becomes `Nat` addition.
* `utf8.RuneCountInString` is modelled by `String.length` (both count
  Unicode code points).
* Sub-templates (`ThenTmpl`/`ElseTmpl`/`IterTmpl`) are separate `Template`
  values owned by their op, exactly as in the source.
The modelled node universe covers the kinds the verified claims are about:
text, progress (all three bindings), row/column containers, boolean-pointer
conditionals, `ForEach` iteration and `SelectionList`.
-/

namespace Forme

/-- Op discriminator, mirroring the Go `OpKind` constants (restricted to the
modelled universe). -/
inductive OpKind where
  | text | textPtr | textOff
  | progress | progressPtr | progressOff
  | container | ifOp | forEach | selList
  deriving DecidableEq, Repr

/-- The non-recursive fields of the Go `Op` struct. `parent` uses the `-1`
root sentinel; `childStart`/`childEnd` bracket direct children for
containers. -/
structure OpCore where
  kind : OpKind := .text
  parent : Int := -1
  depth : Int := 0
  staticStr : String := ""
  strPtr : Nat := 0
  strOff : Nat := 0
  staticInt : Int := 0
  intPtr : Nat := 0
  intOff : Nat := 0
  width : Int := 0
  height : Int := 0
  percentWidth : ℚ := 0
  flexGrow : ℚ := 0
  gap : Int := 0
  isRow : Bool := false
  border : Bool := false
  childStart : Nat := 0
  childEnd : Nat := 0
  condPtr : Option Nat := none
  slicePtr : Nat := 0
  elemSize : Nat := 1
  slAddr : Nat := 0
  selectedPtr : Option Nat := none
  marker : String := ""
  markerWidth : Int := 0
  deriving DecidableEq, Repr

/- A compiled template: flat op list, depth-indexed child lists, max depth.
Each op may own then/else/iteration sub-templates (`Op.mk core thenT elseT
iterT`), mirroring `ThenTmpl`/`ElseTmpl`/`IterTmpl`. -/
mutual
inductive Template where
  | mk : List Op → List (List Nat) → Int → Template
inductive Op where
  | mk : OpCore → Option Template → Option Template → Option Template → Op
end

def Template.ops : Template → List Op
  | .mk o _ _ => o

def Template.byDepth : Template → List (List Nat)
  | .mk _ b _ => b

def Template.maxDepth : Template → Int
  | .mk _ _ m => m

def Op.core : Op → OpCore
  | .mk c _ _ _ => c

def Op.thenT : Op → Option Template
  | .mk _ t _ _ => t

def Op.elseT : Op → Option Template
  | .mk _ _ e _ => e

def Op.iterT : Op → Option Template
  | .mk _ _ _ i => i

instance : Inhabited Op := ⟨.mk {} none none none⟩

/-- Runtime geometry of one op (`Geom` in the source): width, height, local
position inside the parent's content region, and the pre-flex content
height. -/
structure Geom where
  w : Int := 0
  h : Int := 0
  localX : Int := 0
  localY : Int := 0
  contentH : Int := 0
  deriving DecidableEq, Repr

instance : Inhabited Geom := ⟨{}⟩

/-- A Go slice header seen through `*(*sliceHeader)(op.SlicePtr)`: base
address of the element data and current length. -/
structure SliceVal where
  dataAddr : Nat := 0
  len : Nat := 0
  deriving DecidableEq, Repr

/-- Caller-owned state reachable through the pointers stored in ops.  All
reads the engine performs through a pointer go through this environment;
the engine never writes to it (except the selection-list windowing state,
which is threaded separately). -/
structure Env where
  strAt : Nat → String
  intAt : Nat → Int
  boolAt : Nat → Bool
  sliceAt : Nat → SliceVal
  slMaxVisible : Nat → Int

/-- Go's `int16(float32expr)` conversion: truncation toward zero, on the
exact rational value. -/
def i16trunc (q : ℚ) : Int :=
  if 0 ≤ q then ⌊q⌋ else ⌈q⌉

/-- Display-cell count of a string (`utf8.RuneCountInString`): the number of
code points. -/
def cellWidth (s : String) : Int :=
  (s.length : Int)

/-- Indexing helpers for the parallel `ops`/`geom` arrays. -/
def opAt (ops : List Op) (i : Nat) : OpCore :=
  (ops.getD i default).core

def subAt (ops : List Op) (i : Nat) : Op :=
  ops.getD i default

def geomAt (g : List Geom) (i : Nat) : Geom :=
  g.getD i default

def setGeom (g : List Geom) (i : Nat) (x : Geom) : List Geom :=
  g.set i x

/-- The index range `[childStart, childEnd)` a container loop walks. -/
def childRange (op : OpCore) : List Nat :=
  List.range' op.childStart (op.childEnd - op.childStart)

/-- `setOpWidth` (source lines 707–757): width of a single op given the
available width and optional element base.  Kinds outside the modelled
universe fall to the `default` arm exactly as in the source. -/
def setOpWidth (env : Env) (op : OpCore) (g : Geom) (availW : Int)
    (elemBase : Option Nat) : Geom :=
  match op.kind with
  | .text => { g with w := cellWidth op.staticStr }
  | .textPtr => { g with w := cellWidth (env.strAt op.strPtr) }
  | .textOff =>
      match elemBase with
      | some b => { g with w := cellWidth (env.strAt (b + op.strOff)) }
      | none => { g with w := 10 }
  | .progress => { g with w := op.width }
  | .progressPtr => { g with w := op.width }
  | .progressOff => { g with w := op.width }
  | .selList => { g with w := availW }
  | .container =>
      if 0 < op.width then { g with w := op.width }
      else if 0 < op.percentWidth then
        { g with w := i16trunc ((availW : ℚ) * op.percentWidth) }
      else { g with w := availW }
  | _ => { g with w := availW }

/-- How a text op's value binding resolves to a string: static literal,
caller pointer, or element-base offset (the latter needs an element base). -/
def resolveStr (env : Env) (elemBase : Option Nat) (op : OpCore) :
    Option String :=
  match op.kind with
  | .text => some op.staticStr
  | .textPtr => some (env.strAt op.strPtr)
  | .textOff => elemBase.map fun b => env.strAt (b + op.strOff)
  | _ => none

/-- Accumulator of pass 1 of `distributeRowChildWidths`: geometry updated so
far, width used by fixed children, the collected explicit-flex and
implicit-flex child indices, and the running flex total. -/
structure RowPass1 where
  g : List Geom
  usedW : Int
  flexL : List Nat
  implL : List Nat
  totalFlex : ℚ

/-- One iteration of pass 1 of `distributeRowChildWidths` (source lines
797–816): skip non-direct children; defer explicit-flex and implicit-flex
children; size fixed children via `setOpWidth` and accumulate `usedW`. -/
def rowPass1Step (env : Env) (eb : Option Nat) (ops : List Op) (idx : Nat)
    (availW : Int) (st : RowPass1) (i : Nat) : RowPass1 :=
  let c := opAt ops i
  if c.parent ≠ (idx : Int) then st
  else if 0 < c.flexGrow then
    { st with totalFlex := st.totalFlex + c.flexGrow, flexL := st.flexL ++ [i] }
  else if c.kind = .container ∧ c.width = 0 ∧ c.percentWidth = 0 then
    { st with implL := st.implL ++ [i] }
  else
    let g' := setGeom st.g i (setOpWidth env c (geomAt st.g i) availW eb)
    { st with g := g', usedW := st.usedW + (geomAt g' i).w }

def rowPass1 (env : Env) (eb : Option Nat) (ops : List Op) (idx : Nat)
    (availW : Int) (g : List Geom) : RowPass1 :=
  (childRange (opAt ops idx)).foldl (rowPass1Step env eb ops idx availW)
    ⟨g, 0, [], [], 0⟩

/-- Number of direct children of `idx` (source lines 819–824). -/
def directChildCount (ops : List Op) (idx : Nat) : Nat :=
  (childRange (opAt ops idx)).countP fun i =>
    decide ((opAt ops i).parent = (idx : Int))

/-- Gap accounting (source lines 825–827). -/
def rowUsedWithGaps (op : OpCore) (count : Nat) (usedW : Int) : Int :=
  if 1 < count ∧ 0 < op.gap then usedW + op.gap * ((count : Int) - 1)
  else usedW

/-- Pass 2, explicit-flex branch (source lines 833–849): each flex child
gets `int16(float32(remaining) * flexGrow/totalFlex)`; the last flex child
gets the exact remainder instead. -/
def rowFlexLoop (remaining : Int) (totalFlex : ℚ) (ops : List Op) :
    List Nat → Int → List Geom → List Geom
  | [], _, g => g
  | c :: rest, distributed, g =>
      let fw0 := i16trunc ((remaining : ℚ) * ((opAt ops c).flexGrow / totalFlex))
      let fw := if rest.isEmpty then remaining - distributed else fw0
      rowFlexLoop remaining totalFlex ops rest (distributed + fw)
        (setGeom g c { geomAt g c with w := fw })

/-- Pass 2, implicit-flex branch (source lines 850–865): remaining width is
shared evenly, last child takes the remainder. -/
def rowImplLoop (remaining shareW : Int) :
    List Nat → Int → List Geom → List Geom
  | [], _, g => g
  | c :: rest, distributed, g =>
      let w := if rest.isEmpty then remaining - distributed else shareW
      rowImplLoop remaining shareW rest (distributed + w)
        (setGeom g c { geomAt g c with w := w })

/-- `distributeRowChildWidths` (source lines 789–866). -/
def distributeRowChildWidths (env : Env) (eb : Option Nat) (ops : List Op)
    (g : List Geom) (idx : Nat) (availW : Int) : List Geom :=
  let op := opAt ops idx
  let st := rowPass1 env eb ops idx availW g
  let usedW := rowUsedWithGaps op (directChildCount ops idx) st.usedW
  let remaining := availW - usedW
  if 0 < remaining ∧ 0 < st.totalFlex then
    rowFlexLoop remaining st.totalFlex ops st.flexL 0 st.g
  else if 0 < remaining ∧ st.implL ≠ [] then
    rowImplLoop remaining (Int.tdiv remaining (st.implL.length : Int))
      st.implL 0 st.g
  else st.g

/-- Width the pass-2 loop computes for a non-last explicit-flex child:
`int16(float32(remaining) * (flexGrow / totalFlex))`. -/
def flexWidth (remaining : Int) (totalFlex : ℚ) (ops : List Op) (c : Nat) : Int :=
  i16trunc ((remaining : ℚ) * ((opAt ops c).flexGrow / totalFlex))

/-- The widths `rowFlexLoop` assigns, child by child, starting from
`distributed = d`: non-last children get `flexWidth`, the last child gets
the exact remainder. -/
def flexWidths (remaining : Int) (totalFlex : ℚ) (ops : List Op) :
    List Nat → Int → List Int
  | [], _ => []
  | c :: rest, d =>
      let fw := if rest.isEmpty then remaining - d
        else flexWidth remaining totalFlex ops c
      fw :: flexWidths remaining totalFlex ops rest (d + fw)

/-- The explicit-flex predicate of pass 1: a direct child of `idx` with
positive flex-grow. -/
def isFlexChild (ops : List Op) (idx : Nat) (i : Nat) : Bool :=
  decide ((opAt ops i).parent = (idx : Int) ∧ 0 < (opAt ops i).flexGrow)

/-- The explicit-flex children pass 1 collects, in op order. -/
def rowFlexList (env : Env) (eb : Option Nat) (ops : List Op) (idx : Nat)
    (availW : Int) (g : List Geom) : List Nat :=
  (rowPass1 env eb ops idx availW g).flexL

/-- The total explicit flex weight pass 1 accumulates. -/
def rowTotalFlex (env : Env) (eb : Option Nat) (ops : List Op) (idx : Nat)
    (availW : Int) (g : List Geom) : ℚ :=
  (rowPass1 env eb ops idx availW g).totalFlex

/-- `remaining = avail - used_w` after pass 1 and gap accounting (source
lines 825–830). -/
def rowRemaining (env : Env) (eb : Option Nat) (ops : List Op) (idx : Nat)
    (availW : Int) (g : List Geom) : Int :=
  availW - rowUsedWithGaps (opAt ops idx) (directChildCount ops idx)
    (rowPass1 env eb ops idx availW g).usedW

/-- `distributeColChildWidths` (source lines 777–786): every direct child
fills the available width. -/
def distributeColChildWidths (env : Env) (eb : Option Nat) (ops : List Op)
    (g : List Geom) (idx : Nat) (availW : Int) : List Geom :=
  (childRange (opAt ops idx)).foldl
    (fun g i =>
      if (opAt ops i).parent = (idx : Int) then
        setGeom g i (setOpWidth env (opAt ops i) (geomAt g i) availW eb)
      else g) g

/-- `distributeWidthsToChildren` (source lines 762–774): subtract the border
inset, then dispatch on row/column. -/
def distributeWidthsToChildren (env : Env) (eb : Option Nat) (ops : List Op)
    (g : List Geom) (idx : Nat) : List Geom :=
  let op := opAt ops idx
  let contentW := (geomAt g idx).w - (if op.border then 2 else 0)
  if op.isRow then distributeRowChildWidths env eb ops g idx contentW
  else distributeColChildWidths env eb ops g idx contentW

/-- Depth indices `0 ≤ d ≤ maxDepth` walked by the phase loops. -/
def depthRange (maxDepth : Int) : List Nat :=
  if maxDepth < 0 then [] else List.range (maxDepth.toNat + 1)

/-- `distributeWidths` (source lines 685–704): roots get the screen width,
then containers distribute widths depth by depth. -/
def distributeWidths (env : Env) (eb : Option Nat) (ops : List Op)
    (byDepth : List (List Nat)) (maxDepth : Int) (screenW : Int)
    (g : List Geom) : List Geom :=
  let g := (byDepth.getD 0 []).foldl
    (fun g i => setGeom g i (setOpWidth env (opAt ops i) (geomAt g i) screenW eb)) g
  (depthRange maxDepth).foldl
    (fun g d =>
      (byDepth.getD d []).foldl
        (fun g i =>
          if (opAt ops i).kind = .container then
            distributeWidthsToChildren env eb ops g i
          else g) g) g

/-- Condition evaluation of an `OpIf`:
`(op.CondPtr != nil && *op.CondPtr)`; builder-style `CondNode` conditions
are outside the modelled universe. -/
def condTrue (env : Env) (op : OpCore) : Bool :=
  match op.condPtr with
  | some a => env.boolAt a
  | none => false

/-- The direct children of `idx`, in op order. -/
def childList (ops : List Op) (idx : Nat) : List Nat :=
  (childRange (opAt ops idx)).filter fun i =>
    decide ((opAt ops i).parent = (idx : Int))

/-- `getIfFlexGrow` (source lines 1351–1374): flex weight of an `OpIf`'s
active branch when that branch's root op is a container with positive
flex-grow. -/
def getIfFlexGrow (env : Env) (o : Op) : ℚ :=
  let tm := if condTrue env o.core then o.thenT else o.elseT
  match tm with
  | some t =>
      if t.ops.length = 0 then 0
      else
        let rootOp := opAt t.ops 0
        if rootOp.kind = .container ∧ 0 < rootOp.flexGrow then rootOp.flexGrow
        else 0
  | none => 0

/-- Available-height determination of `distributeFlexInCol` (source lines
1190–1216): own height for flex children, else the parent's height minus
its border, else the root height; an explicit height overrides. -/
def colAvailH (ops : List Op) (g : List Geom) (idx : Nat) (rootH : Int) :
    Int :=
  let op := opAt ops idx
  let geom := geomAt g idx
  let availH :=
    if 0 < op.flexGrow ∧ 0 < geom.h then
      geom.h - (if op.border then 2 else 0)
    else if 0 ≤ op.parent then
      (geomAt g op.parent.toNat).h
        - (if (opAt ops op.parent.toNat).border then 2 else 0)
    else rootH
  if 0 < op.height then op.height - (if op.border then 2 else 0) else availH

/-- Flex-capable direct child of a column: a container with positive
flex-grow (layers are outside the modelled universe), or a conditional
whose active branch root is such a container. -/
def isColFlex (env : Env) (ops : List Op) (i : Nat) : Bool :=
  ((opAt ops i).kind = .container && decide (0 < (opAt ops i).flexGrow))
    || ((opAt ops i).kind = .ifOp
          && decide (0 < getIfFlexGrow env (subAt ops i)))

/-- The flex weight a column flex child contributes (`FlexGrow` for
containers, the active branch root's flex for conditionals). -/
def colFlexVal (env : Env) (ops : List Op) (i : Nat) : ℚ :=
  if (opAt ops i).kind = .container then (opAt ops i).flexGrow
  else getIfFlexGrow env (subAt ops i)

/-- Accumulator of the used-height scan of `distributeFlexInCol` (source
lines 1218–1254). -/
structure ColPass where
  usedH : Int
  flexL : List Nat
  flexG : List ℚ
  totalFlex : ℚ

/-- One iteration of the used-height scan: flex-capable children contribute
their `ContentH`, all other children their current height. -/
def colPassStep (env : Env) (ops : List Op) (g : List Geom) (idx : Nat)
    (st : ColPass) (i : Nat) : ColPass :=
  let c := opAt ops i
  if c.parent ≠ (idx : Int) then st
  else
    let cg := geomAt g i
    if c.kind = .container ∧ 0 < c.flexGrow then
      { usedH := st.usedH + cg.contentH, flexL := st.flexL ++ [i],
        flexG := st.flexG ++ [c.flexGrow],
        totalFlex := st.totalFlex + c.flexGrow }
    else if c.kind = .ifOp ∧ 0 < getIfFlexGrow env (subAt ops i) then
      { usedH := st.usedH + cg.contentH, flexL := st.flexL ++ [i],
        flexG := st.flexG ++ [getIfFlexGrow env (subAt ops i)],
        totalFlex := st.totalFlex + getIfFlexGrow env (subAt ops i) }
    else { st with usedH := st.usedH + cg.h }

def colPass (env : Env) (ops : List Op) (g : List Geom) (idx : Nat) :
    ColPass :=
  (childRange (opAt ops idx)).foldl (colPassStep env ops g idx) ⟨0, [], [], 0⟩

/-- The distribution loop of `distributeFlexInCol` (source lines
1269–1282): each flex child's height becomes `ContentH` plus its share of
the remaining space; the last flex child absorbs the rounding remainder. -/
def colFlexLoop (remaining : Int) (totalFlex : ℚ) :
    List (Nat × ℚ) → Int → List Geom → List Geom
  | [], _, g => g
  | (c, fg) :: rest, distributed, g =>
      let e0 := i16trunc ((remaining : ℚ) * (fg / totalFlex))
      let e := if rest.isEmpty then remaining - distributed else e0
      colFlexLoop remaining totalFlex rest (distributed + e)
        (setGeom g c { geomAt g c with h := (geomAt g c).contentH + e })

/-- The heights the distribution loop writes, computed against the
pre-distribution geometry. -/
def colNewHeights (remaining : Int) (totalFlex : ℚ) (g : List Geom) :
    List (Nat × ℚ) → Int → List Int
  | [], _ => []
  | (c, fg) :: rest, d =>
      let e := if rest.isEmpty then remaining - d
        else i16trunc ((remaining : ℚ) * (fg / totalFlex))
      ((geomAt g c).contentH + e)
        :: colNewHeights remaining totalFlex g rest (d + e)

/-- One iteration of the position resweep of `distributeFlexInCol` (source
lines 1292–1306): honour the gap, rewrite `LocalY`, advance the cursor by
the (possibly new) height. -/
def colResweepStep (ops : List Op) (idx : Nat) (op : OpCore)
    (acc : List Geom × Int × Bool) (i : Nat) : List Geom × Int × Bool :=
  let g := acc.1
  let cursor := acc.2.1
  let first := acc.2.2
  if (opAt ops i).parent ≠ (idx : Int) then (g, cursor, first)
  else
    let contentOffY : Int := if op.border then 1 else 0
    let cursor := if ¬ first ∧ 0 < op.gap then cursor + op.gap else cursor
    let g' := setGeom g i { geomAt g i with localY := contentOffY + cursor }
    (g', cursor + (geomAt g' i).h, false)

/-- The position resweep of `distributeFlexInCol` (source lines 1284–1306):
recompute child `LocalY` cursors with the new heights. -/
def colResweep (ops : List Op) (idx : Nat) (op : OpCore) (g : List Geom) :
    List Geom :=
  ((childRange op).foldl (colResweepStep ops idx op) (g, 0, true)).1

/-- `distributeFlexInCol` (source lines 1187–1323).  The propagation of the
new heights into conditional sub-templates (`propagateFlexToIf`) mutates
only the sub-templates' own geometry arrays, never this one, and is not
modelled here. -/
def distributeFlexInCol (env : Env) (ops : List Op) (g : List Geom)
    (idx : Nat) (rootH : Int) : List Geom :=
  let op := opAt ops idx
  let availH := colAvailH ops g idx rootH
  let st := colPass env ops g idx
  let usedH := rowUsedWithGaps op (directChildCount ops idx) st.usedH
  let remaining := availH - usedH
  if 0 < remaining ∧ 0 < st.totalFlex then
    let g1 := colFlexLoop remaining st.totalFlex (st.flexL.zip st.flexG) 0 g
    let g2 := colResweep ops idx op g1
    setGeom g2 idx
      { geomAt g2 idx with h := availH + (if op.border then 2 else 0) }
  else g

/-- `distributeFlexGrow` (source lines 1172–1186): Phase 3 walks the depth
index top-down and runs the column flex distribution on every non-row
container (`op.Kind == OpContainer && !op.IsRow`). -/
def distributeFlexGrow (env : Env) (ops : List Op)
    (byDepth : List (List Nat)) (maxDepth : Int) (g : List Geom)
    (rootH : Int) : List Geom :=
  (depthRange maxDepth).foldl
    (fun g d =>
      (byDepth.getD d []).foldl
        (fun g i =>
          if (opAt ops i).kind = .container ∧ (opAt ops i).isRow = false then
            distributeFlexInCol env ops g i rootH
          else g) g) g

/-- A `Text` node's content: a static string literal or a `*string` at a
caller address. -/
inductive TextContent where
  | lit (s : String)
  | addr (a : Nat)

/-- A `Progress` node's value: a static int literal or an `*int` at a caller
address. -/
inductive IntContent where
  | lit (v : Int)
  | addr (a : Nat)

/-- The dynamic `Items any` value of a `ForEach`/`SelectionList` node, as
the compiler's reflection sees it: a pointer to a slice (with the element
type's size), a pointer to something else, or a non-pointer. -/
inductive ItemsSrc where
  | ptrSlice (addr : Nat) (elemSize : Nat)
  | ptrNonSlice
  | nonPtr

/-- The `flex` layout-hint struct carried by `Row`/`Col`. -/
structure FlexOpts where
  percentWidth : ℚ := 0
  width : Int := 0
  height : Int := 0
  flexGrow : ℚ := 0

/- The declarative node universe the compiler is modelled over.  A
`forEach`/`selList` node carries the body the probed rendering function
returned (the source invokes `Render` once against a zero-initialised probe
element at `probeBase`; here the resulting tree is carried directly,
together with the probe's base address). -/
inductive Node where
  | text (content : TextContent)
  | progress (value : IntContent) (barWidth : Int)
  | row (gap : Int) (f : FlexOpts) (border : Bool) (children : List Node)
  | col (gap : Int) (f : FlexOpts) (border : Bool) (children : List Node)
  | ifNode (cond : Option Nat) (thenN : Node) (elseN : Option Node)
  | forEach (items : ItemsSrc) (probeBase : Nat) (body : Node)
  | selList (items : ItemsSrc) (probeBase : Nat) (body : Option Node)
      (selected : Option Nat) (marker : String) (slAddr : Nat)

/-- Modelled from the spec: `isWithinRange` is not under `src/`.  Per the
spec, a pointer is element-relative exactly when its address lies in
`[elem_base, elem_base + elem_size)`. -/
def isWithinRange (a base size : Nat) : Prop :=
  base ≤ a ∧ a < base + size

instance (a base size : Nat) : Decidable (isWithinRange a base size) :=
  inferInstanceAs (Decidable (_ ∧ _))

/-- Pad the depth index with empty levels so that level `d` exists
(`addOp`'s growth loop, source lines 203–207). -/
def extendTo (l : List (List Nat)) (n : Nat) : List (List Nat) :=
  l ++ List.replicate (n - l.length) []

/-- `addOp` (source lines 196–215): append the op with the given depth,
register it in the depth index and bump `maxDepth`. -/
def addOp (t : Template) (core : OpCore) (thenT elseT iterT : Option Template)
    (depth : Int) : Template × Nat :=
  let idx := t.ops.length
  let op := Op.mk { core with depth := depth } thenT elseT iterT
  let ops := t.ops ++ [op]
  if 0 ≤ depth then
    let d := depth.toNat
    let byD := extendTo t.byDepth (d + 1)
    let byD := byD.set d (byD.getD d [] ++ [idx])
    let maxD := if t.maxDepth < depth then depth else t.maxDepth
    (Template.mk ops byD maxD, idx)
  else (Template.mk ops t.byDepth t.maxDepth, idx)

/-- Rewrite `ChildStart`/`ChildEnd` of the op at `idx` (the in-place update
of `compileContainer`, source lines 470–472). -/
def setChildRange (t : Template) (idx childStart childEnd : Nat) : Template :=
  let o := t.ops.getD idx default
  Template.mk
    (t.ops.set idx
      (Op.mk { o.core with childStart := childStart, childEnd := childEnd }
        o.thenT o.elseT o.iterT))
    t.byDepth t.maxDepth

/-- A fresh sub-template arena with 8 pre-allocated empty depth levels
(the repeated sub-template construction pattern). -/
def emptySub : Template := Template.mk [] (List.replicate 8 []) 0

/-- Trim a freshly compiled sub-template's depth index to `maxDepth + 1`
levels, as every sub-template construction site does. -/
def trimSub (t : Template) : Template :=
  if 0 ≤ t.maxDepth then
    Template.mk t.ops (t.byDepth.take (t.maxDepth.toNat + 1)) t.maxDepth
  else t

/-- The container op `compileContainer` builds (source lines 447–459). -/
def containerCore (gap : Int) (isRow : Bool) (f : FlexOpts) (border : Bool)
    (parent : Int) : OpCore :=
  { kind := .container, parent := parent, isRow := isRow, gap := gap,
    percentWidth := f.percentWidth, width := f.width, height := f.height,
    flexGrow := f.flexGrow, border := border }

mutual

/-- `Template.compile` (source lines 217–259) over the modelled node
universe, together with the per-kind compile helpers it dispatches to.
Appends the node's ops to `t` and returns the new template with the node's
op index; compile-time contract violations (non-pointer iteration sources)
are Go panics, modelled as `Except.error`. -/
def compileN (node : Node) (parent : Int) (depth : Int)
    (eb : Option (Nat × Nat)) (t : Template) :
    Except String (Template × Nat) :=
  match node with
  | .text c =>
      let core : OpCore :=
        match c with
        | .lit s => { kind := .text, parent := parent, staticStr := s }
        | .addr a =>
            match eb with
            | some (b, sz) =>
                if isWithinRange a b sz then
                  { kind := .textOff, parent := parent, strOff := a - b }
                else { kind := .textPtr, parent := parent, strPtr := a }
            | none => { kind := .textPtr, parent := parent, strPtr := a }
      .ok (addOp t core none none none depth)
  | .progress v bw =>
      let width := if bw = 0 then 20 else bw
      let core : OpCore :=
        match v with
        | .lit n =>
            { kind := .progress, parent := parent, staticInt := n,
              width := width }
        | .addr a =>
            match eb with
            | some (b, sz) =>
                if isWithinRange a b sz then
                  { kind := .progressOff, parent := parent, intOff := a - b,
                    width := width }
                else
                  { kind := .progressPtr, parent := parent, intPtr := a,
                    width := width }
            | none =>
                { kind := .progressPtr, parent := parent, intPtr := a,
                  width := width }
      .ok (addOp t core none none none depth)
  | .row gap f border children => do
      -- compileContainer (source lines 446–475), inlined for the row case:
      -- add the container op, compile the children at depth + 1, then
      -- bracket them with ChildStart/ChildEnd.
      let (t1, idx) := addOp t (containerCore gap true f border parent) none
        none none depth
      let childStart := t1.ops.length
      let t2 ← compileList children (idx : Int) (depth + 1) eb t1
      let childEnd := t2.ops.length
      .ok (setChildRange t2 idx childStart childEnd, idx)
  | .col gap f border children => do
      -- compileContainer, inlined for the column case.
      let (t1, idx) := addOp t (containerCore gap false f border parent) none
        none none depth
      let childStart := t1.ops.length
      let t2 ← compileList children (idx : Int) (depth + 1) eb t1
      let childEnd := t2.ops.length
      .ok (setChildRange t2 idx childStart childEnd, idx)
  | .ifNode cond thenN elseN => do
      let (tThen, _) ← compileN thenN (-1) 0 eb emptySub
      let thenT := trimSub tThen
      let elseT ← match elseN with
        | some e => do
            let (tElse, _) ← compileN e (-1) 0 eb emptySub
            pure (some (trimSub tElse))
        | none => pure none
      .ok (addOp t { kind := .ifOp, parent := parent, condPtr := cond }
            (some thenT) elseT none depth)
  | .forEach items probe body =>
      match items with
      | .ptrSlice addr elemSize => do
          let (tIter, _) ← compileN body (-1) 0 (some (probe, elemSize))
            emptySub
          .ok (addOp t
                { kind := .forEach, parent := parent, slicePtr := addr,
                  elemSize := elemSize }
                none none (some (trimSub tIter)) depth)
      | _ => .error "ForEach Items must be pointer to slice"
  | .selList items probe body selected marker slAddr =>
      match items with
      | .ptrSlice addr elemSize => do
          let iterT ← match body with
            | some b => do
                let (tIter, _) ← compileN b (-1) 0 (some (probe, elemSize))
                  emptySub
                pure (some (trimSub tIter))
            | none => pure none
          let mk := if marker = "" then "> " else marker
          .ok (addOp t
                { kind := .selList, parent := parent, slicePtr := addr,
                  elemSize := elemSize, slAddr := slAddr,
                  selectedPtr := selected, marker := mk,
                  markerWidth := (mk.length : Int) }
                none none iterT depth)
      | _ => .error "SelectionList Items must be pointer to slice"
termination_by structural node

def compileList (children : List Node) (parent : Int) (depth : Int)
    (eb : Option (Nat × Nat)) (t : Template) : Except String Template :=
  match children with
  | [] => .ok t
  | c :: rest => do
      let (t, _) ← compileN c parent depth eb t
      compileList rest parent depth eb t
termination_by structural children

end

/-- The trailing-empty-depth trim loop of `Build` (source lines 183–188),
running `maxDepth` down while its level is empty. -/
def trimMaxNat (byD : List (List Nat)) : Nat → Int
  | 0 => if byD.getD 0 [] = [] then -1 else 0
  | n + 1 => if byD.getD (n + 1) [] = [] then trimMaxNat byD n else (n + 1 : Nat)

/-- `Build` (source lines 170–194): compile from an empty 16-level arena,
trim unused depth levels.  (The runtime `geom` allocation is state, kept
outside the compiled template in this model.) -/
def Build (node : Node) : Except String Template := do
  let (t, _) ← compileN node (-1) 0 none
    (Template.mk [] (List.replicate 16 []) 0)
  let m := if t.maxDepth < 0 then t.maxDepth
    else trimMaxNat t.byDepth t.maxDepth.toNat
  if 0 ≤ m then
    pure (Template.mk t.ops (t.byDepth.take (m.toNat + 1)) m)
  else
    pure (Template.mk t.ops t.byDepth m)

def parentOf (ops : List Op) (j : Nat) : Int := (opAt ops j).parent

def depthOf (ops : List Op) (j : Nat) : Int := (opAt ops j).depth

def kindOf (ops : List Op) (j : Nat) : OpKind := (opAt ops j).kind

def csOf (ops : List Op) (j : Nat) : Nat := (opAt ops j).childStart

def ceOf (ops : List Op) (j : Nat) : Nat := (opAt ops j).childEnd

/-- Fueled parent-chain walk: does following `parent` links from `j` reach
`i`?  Fuel `j + 1` suffices because parent links in compiled templates
strictly decrease (the walk also stops on malformed links). -/
def isDescF (ops : List Op) : Nat → Nat → Nat → Bool
  | 0, _, _ => false
  | fuel + 1, j, i =>
      let p := parentOf ops j
      if p = (i : Int) then true
      else if p < 0 ∨ (j : Int) ≤ p then false
      else isDescF ops fuel p.toNat i

/-- `j` is a descendant of `i`: the parent chain from `j` reaches `i`. -/
def isDesc (ops : List Op) (j i : Nat) : Prop :=
  isDescF ops (j + 1) j i = true

instance (ops : List Op) (j i : Nat) : Decidable (isDesc ops j i) :=
  inferInstanceAs (Decidable (_ = _))

/-- The descendant relation as an inductive parent chain (with the
strict-decrease side condition the compiled arrays satisfy). -/
inductive Desc (ops : List Op) : Nat → Nat → Prop where
  | direct (j i : Nat) : parentOf ops j = (i : Int) → Desc ops j i
  | step (j p i : Nat) : parentOf ops j = (p : Int) → p < j → Desc ops p i →
      Desc ops j i

/-- Well-formedness of the op-array segment `[s, e)` produced by one
`compile` call rooted at index `s` with the given parent and depth: the
root carries the passed parent/depth; every other op's parent lies inside
the segment, below it, is a container whose `[childStart, childEnd)`
bracket contains the op, and is one depth level up; container child ranges
start right after the container, stay inside the segment, contain exactly
the ops parented into them, and nest; non-containers have empty ranges. -/
structure BlockWF (ops : List Op) (s e : Nat) (parent depth : Int) : Prop
    where
  lt : s < e
  le : e ≤ ops.length
  root_parent : parentOf ops s = parent
  root_depth : depthOf ops s = depth
  par_lo : ∀ j, s < j → j < e → (s : Int) ≤ parentOf ops j
  par_hi : ∀ j, s < j → j < e → parentOf ops j < (j : Int)
  par_spec : ∀ j, s < j → j < e → ∀ p : Nat, parentOf ops j = (p : Int) →
      kindOf ops p = .container ∧ csOf ops p ≤ j ∧ j < ceOf ops p ∧
        depthOf ops j = depthOf ops p + 1
  cont_cs : ∀ j, s ≤ j → j < e → kindOf ops j = .container →
      csOf ops j = j + 1
  cont_ce : ∀ j, s ≤ j → j < e → kindOf ops j = .container →
      j + 1 ≤ ceOf ops j ∧ ceOf ops j ≤ e
  cont_block_par : ∀ j, s ≤ j → j < e → kindOf ops j = .container →
      ∀ m, j < m → m < ceOf ops j → (j : Int) ≤ parentOf ops m
  cont_children_in : ∀ j, s ≤ j → j < e → kindOf ops j = .container →
      ∀ m, j < m → m < e → parentOf ops m = (j : Int) → m < ceOf ops j
  leaf_range : ∀ j, s ≤ j → j < e → kindOf ops j ≠ .container →
      csOf ops j = 0 ∧ ceOf ops j = 0
  nest : ∀ j, s ≤ j → j < e → kindOf ops j = .container →
      ∀ k, j < k → k < ceOf ops j → kindOf ops k = .container →
        ceOf ops k ≤ ceOf ops j

/-- Well-formedness of a segment `[s, e)` holding the consecutive blocks of
a list of siblings compiled with the same parent (which lies below `s`) and
depth. -/
structure SegWF (ops : List Op) (s e : Nat) (parent depth : Int) : Prop
    where
  s_le : s ≤ e
  le : e ≤ ops.length
  parent_lt : parent < (s : Int)
  par_cases : ∀ j, s ≤ j → j < e →
      parentOf ops j = parent ∨
        ((s : Int) ≤ parentOf ops j ∧ parentOf ops j < (j : Int))
  root_depth : ∀ j, s ≤ j → j < e → parentOf ops j = parent →
      depthOf ops j = depth
  par_spec : ∀ j, s ≤ j → j < e → ∀ p : Nat, s ≤ p →
      parentOf ops j = (p : Int) →
      kindOf ops p = .container ∧ csOf ops p ≤ j ∧ j < ceOf ops p ∧
        depthOf ops j = depthOf ops p + 1
  cont_cs : ∀ j, s ≤ j → j < e → kindOf ops j = .container →
      csOf ops j = j + 1
  cont_ce : ∀ j, s ≤ j → j < e → kindOf ops j = .container →
      j + 1 ≤ ceOf ops j ∧ ceOf ops j ≤ e
  cont_block_par : ∀ j, s ≤ j → j < e → kindOf ops j = .container →
      ∀ m, j < m → m < ceOf ops j → (j : Int) ≤ parentOf ops m
  cont_children_in : ∀ j, s ≤ j → j < e → kindOf ops j = .container →
      ∀ m, j < m → m < e → parentOf ops m = (j : Int) → m < ceOf ops j
  leaf_range : ∀ j, s ≤ j → j < e → kindOf ops j ≠ .container →
      csOf ops j = 0 ∧ ceOf ops j = 0
  nest : ∀ j, s ≤ j → j < e → kindOf ops j = .container →
      ∀ k, j < k → k < ceOf ops j → kindOf ops k = .container →
        ceOf ops k ≤ ceOf ops j

/-- Mutable runtime state of a caller-owned `SelectionList`: the windowing
offset and the cached sequence length the layout phase writes. -/
structure SlState where
  offset : Int := 0
  len : Nat := 0
  deriving DecidableEq, Repr

instance : Inhabited SlState := ⟨{}⟩

/-- Modelled from the spec: `SelectionList.ensureVisible` is not under
`src/` (only its call site is).  Per the spec it "updates the caller-owned
windowing offset so the selected index remains visible": with a positive
`MaxVisible` window it clamps the offset so that
`offset ≤ selected < offset + MaxVisible`. -/
def ensureVisible (maxVisible selected offset : Int) : Int :=
  if maxVisible ≤ 0 then offset
  else if selected < offset then selected
  else if offset + maxVisible ≤ selected then selected - maxVisible + 1
  else offset

/-- The `OpSelectionList` case of `layout` (source lines 886–901): cache the
sequence length and clamp the windowing offset, then set the height to the
visible count capped at `MaxVisible` (when positive), with a minimum of 1.
`SelectionListPtr` is always non-nil for compiled selection lists, so the
source's nil-guards are dropped; `MaxVisible` is read through the list
pointer (`slAddr`) and the selected index through `selectedPtr`. -/
def layoutSelList (env : Env) (op : OpCore) (g : Geom) (sl : SlState) :
    Geom × SlState :=
  let hdr := env.sliceAt op.slicePtr
  let maxVis := env.slMaxVisible op.slAddr
  let offsetNew :=
    match op.selectedPtr with
    | some a => ensureVisible maxVis (env.intAt a) sl.offset
    | none => sl.offset
  let sl' : SlState := { offset := offsetNew, len := hdr.len }
  let visible : Int := (hdr.len : Int)
  let visible := if 0 < maxVis ∧ maxVis < visible then maxVis else visible
  let h := if visible = 0 then 1 else visible
  ({ g with h := h }, sl')

/- Runtime geometry state of a template tree: `GTree.mk geoms nodes` holds
the template's own geom array (parallel to its ops) and, per op, the states
of its owned sub-templates plus the per-item `iterGeoms` scratch
(`GNode.mk thenS elseS iterS iterGeoms`). -/
mutual
inductive GTree where
  | mk : List Geom → List GNode → GTree
inductive GNode where
  | mk : Option GTree → Option GTree → Option GTree → List Geom → GNode
end

def GTree.geoms : GTree → List Geom
  | .mk g _ => g

def GTree.nodes : GTree → List GNode
  | .mk _ n => n

def GNode.thenS : GNode → Option GTree
  | .mk t _ _ _ => t

def GNode.elseS : GNode → Option GTree
  | .mk _ e _ _ => e

def GNode.iterS : GNode → Option GTree
  | .mk _ _ i _ => i

def GNode.iterGeoms : GNode → List Geom
  | .mk _ _ _ g => g

instance : Inhabited GNode := ⟨.mk none none none []⟩

def nodeAt (gt : GTree) (i : Nat) : GNode :=
  gt.nodes.getD i default

def stOrEmpty (o : Option GTree) : GTree :=
  o.getD (.mk [] [])

/-- One buffer call the render walk emits (styles carry no claim-relevant
information and are omitted): a clipped string write
(`WriteStringFast`), a progress bar (`WriteProgressBar`), or a border
(`DrawBorder`). -/
inductive BufWrite where
  | str (x y : Int) (s : String) (maxW : Int)
  | bar (x y w : Int) (ratio : ℚ)
  | border (x y w h : Int)
  deriving DecidableEq, Repr

/-- `renderSelectionList` (source lines 1757–1829): marker/space column plus
one content line per visible index, rendered from the body template's first
op only.  Rich-text content kinds are outside the modelled universe and emit
nothing (like the source's default arm). -/
def renderSelList (env : Env) (sls : Nat → SlState) (op : OpCore)
    (iterT : Option Template) (absX absY maxW : Int) : List BufWrite :=
  let hdr := env.sliceAt op.slicePtr
  if hdr.len = 0 then []
  else
    let selectedIdx : Int :=
      match op.selectedPtr with
      | some a => env.intAt a
      | none => -1
    let maxVis := env.slMaxVisible op.slAddr
    let startIdx : Int := if 0 < maxVis then (sls op.slAddr).offset else 0
    let endIdx : Int :=
      if 0 < maxVis then min ((sls op.slAddr).offset + maxVis) (hdr.len : Int)
      else (hdr.len : Int)
    let spaces := String.mk (List.replicate op.markerWidth.toNat ' ')
    let contentW := maxW - op.markerWidth
    (List.range (endIdx - startIdx).toNat).foldl
      (fun acc k =>
        let i := startIdx + k
        let y := absY + k
        let markerText := if i = selectedIdx then op.marker else spaces
        let acc := acc ++ [BufWrite.str absX y markerText maxW]
        match iterT with
        | some it =>
            if it.ops.length = 0 then acc
            else
              let iterOp := opAt it.ops 0
              let contentX := absX + op.markerWidth
              match iterOp.kind with
              | .text => acc ++ [.str contentX y iterOp.staticStr contentW]
              | .textPtr => acc ++ [.str contentX y (env.strAt iterOp.strPtr) contentW]
              | .textOff => acc ++ [.str contentX y
                  (env.strAt (hdr.dataAddr + i.toNat * op.elemSize + iterOp.strOff))
                  contentW]
              | _ => acc
        | none => acc) []

mutual

/-- `renderOp` (source lines 1472–1609): the main render walk.  Note the
`OpTextOff` arm is the source's explicit no-op ("For now, skip") and
`OpProgressOff` has no arm in the source's switch, so both emit nothing. -/
def renderOp (fuel : Nat) (env : Env) (sls : Nat → SlState) (ops : List Op)
    (gt : GTree) (idx : Nat) (globalX globalY maxW : Int) : List BufWrite :=
  match fuel with
  | 0 => []
  | fuel + 1 =>
    if ops.length ≤ idx then []
    else
      let op := opAt ops idx
      let geom := geomAt gt.geoms idx
      let absX := globalX + geom.localX
      let absY := globalY + geom.localY
      match op.kind with
      | .text => [.str absX absY op.staticStr maxW]
      | .textPtr => [.str absX absY (env.strAt op.strPtr) maxW]
      | .textOff => []
      | .progress => [.bar absX absY op.width ((op.staticInt : ℚ) / 100)]
      | .progressPtr => [.bar absX absY op.width ((env.intAt op.intPtr : ℚ) / 100)]
      | .progressOff => []
      | .selList => renderSelList env sls op (subAt ops idx).iterT absX absY maxW
      | .container =>
          let borderWrites : List BufWrite :=
            if op.border then [.border absX absY geom.w geom.h] else []
          (childRange op).foldl
            (fun acc i =>
              if (opAt ops i).parent = (idx : Int) then
                acc ++ renderOp fuel env sls ops gt i absX absY geom.w
              else acc) borderWrites
      | .ifOp =>
          if condTrue env op then
            match (subAt ops idx).thenT with
            | some t =>
                renderOp fuel env sls t.ops (stOrEmpty (nodeAt gt idx).thenS)
                  0 absX absY geom.w
            | none => []
          else
            match (subAt ops idx).elseT with
            | some t =>
                renderOp fuel env sls t.ops (stOrEmpty (nodeAt gt idx).elseS)
                  0 absX absY geom.w
            | none => []
      | .forEach =>
          match (subAt ops idx).iterT with
          | some it =>
              let hdr := env.sliceAt op.slicePtr
              if hdr.len = 0 then []
              else
                let ig := (nodeAt gt idx).iterGeoms
                (List.range (min hdr.len ig.length)).foldl
                  (fun acc i =>
                    let itemGeom := ig.getD i default
                    acc ++ renderSubTemplate fuel env sls it
                      (stOrEmpty (nodeAt gt idx).iterS)
                      (absX + itemGeom.localX) (absY + itemGeom.localY)
                      itemGeom.w (hdr.dataAddr + i * op.elemSize)) []
          | none => []

/-- `renderSubTemplate` (source lines 1612–1619): render every root-level op
of a sub-template with an explicit element base. -/
def renderSubTemplate (fuel : Nat) (env : Env) (sls : Nat → SlState)
    (t : Template) (gt : GTree) (globalX globalY maxW : Int)
    (elemBase : Nat) : List BufWrite :=
  match fuel with
  | 0 => []
  | fuel + 1 =>
      (List.range t.ops.length).foldl
        (fun acc i =>
          if (opAt t.ops i).parent = -1 then
            acc ++ renderSubOp fuel env sls t.ops gt i globalX globalY maxW
              elemBase
          else acc) []

/-- `renderSubOp` (source lines 1622–1754): the sub-template render walk;
offset-bound text and progress resolve through the element base. -/
def renderSubOp (fuel : Nat) (env : Env) (sls : Nat → SlState)
    (ops : List Op) (gt : GTree) (idx : Nat) (globalX globalY maxW : Int)
    (elemBase : Nat) : List BufWrite :=
  match fuel with
  | 0 => []
  | fuel + 1 =>
      let op := opAt ops idx
      let geom := geomAt gt.geoms idx
      let absX := globalX + geom.localX
      let absY := globalY + geom.localY
      match op.kind with
      | .text => [.str absX absY op.staticStr maxW]
      | .textPtr => [.str absX absY (env.strAt op.strPtr) maxW]
      | .textOff => [.str absX absY (env.strAt (elemBase + op.strOff)) maxW]
      | .progress => [.bar absX absY op.width ((op.staticInt : ℚ) / 100)]
      | .progressPtr => [.bar absX absY op.width ((env.intAt op.intPtr : ℚ) / 100)]
      | .progressOff => [.bar absX absY op.width
          ((env.intAt (elemBase + op.intOff) : ℚ) / 100)]
      | .selList => renderSelList env sls op (subAt ops idx).iterT absX absY maxW
      | .container =>
          let borderWrites : List BufWrite :=
            if op.border then [.border absX absY geom.w geom.h] else []
          (childRange op).foldl
            (fun acc i =>
              if (opAt ops i).parent = (idx : Int) then
                acc ++ renderSubOp fuel env sls ops gt i absX absY geom.w
                  elemBase
              else acc) borderWrites
      | .ifOp =>
          if condTrue env op then
            match (subAt ops idx).thenT with
            | some t =>
                renderSubTemplate fuel env sls t
                  (stOrEmpty (nodeAt gt idx).thenS) absX absY geom.w elemBase
            | none => []
          else
            match (subAt ops idx).elseT with
            | some t =>
                renderSubTemplate fuel env sls t
                  (stOrEmpty (nodeAt gt idx).elseS) absX absY geom.w elemBase
            | none => []
      | .forEach =>
          match (subAt ops idx).iterT with
          | some it =>
              let hdr := env.sliceAt op.slicePtr
              let ig := (nodeAt gt idx).iterGeoms
              (List.range (min hdr.len ig.length)).foldl
                (fun acc j =>
                  let itemGeom := ig.getD j default
                  acc ++ renderSubTemplate fuel env sls it
                    (stOrEmpty (nodeAt gt idx).iterS)
                    (absX + itemGeom.localX) (absY + itemGeom.localY)
                    itemGeom.w (hdr.dataAddr + j * op.elemSize)) []
          | none => []

end

/-- A concrete environment for selection-list witnesses: every slice has
length 5, `MaxVisible` is 2 and the selected index is 4. -/
def envSel : Env :=
  ⟨fun _ => "", fun _ => 4, fun _ => false, fun _ => ⟨0, 5⟩, fun _ => 2⟩

/-- A concrete selection-list op for witnesses. -/
def opSel : OpCore := { kind := .selList, selectedPtr := some 7 }

/-- `Height` (source lines 1833–1845): zero on an empty geometry array, else
the fold over the ops accumulating root-op heights. -/
def heightT (ops : List Op) (geom : List Geom) : Int :=
  if geom.length = 0 then 0
  else (ops.zip geom).foldl
    (fun acc p => if p.1.core.parent = -1 then acc + p.2.h else acc) 0

/-- The specification's reading of `Height`: the sum over root-level indices
(ops whose parent is the `-1` sentinel) of `geom[root].h`. -/
def rootHeightSum (ops : List Op) (geom : List Geom) : Int :=
  ∑ i ∈ Finset.range ops.length,
    if (opAt ops i).parent = -1 then (geomAt geom i).h else 0

/-- A concrete environment used by witnesses. -/
def env0 : Env :=
  ⟨fun _ => "ab", fun _ => 0, fun _ => false, fun _ => {}, fun _ => 0⟩

/-- A concrete row container with two explicit-flex container children
(flex 1 and flex 2), used by witnesses. -/
def opsRow : List Op :=
  [Op.mk { kind := .container, isRow := true, childStart := 1, childEnd := 3 }
      none none none,
   Op.mk { kind := .container, parent := 0, depth := 1, flexGrow := 1 }
      none none none,
   Op.mk { kind := .container, parent := 0, depth := 1, flexGrow := 2 }
      none none none]

/-- Three zero-initialised geometry slots, used by witnesses. -/
def gz3 : List Geom := [{}, {}, {}]

/-- A column with explicit height 1 and one flex child of content height 5:
remaining space is negative, so Phase 3 leaves the geometry untouched. -/
def opsColBad : List Op :=
  [Op.mk { kind := .container, isRow := false, height := 1,
           childStart := 1, childEnd := 2 } none none none,
   Op.mk { kind := .container, parent := 0, depth := 1, flexGrow := 1 }
      none none none]

def gColBad : List Geom := [{ h := 1, contentH := 5 }, { h := 5, contentH := 5 }]

/-- A column with explicit height 10 and one flex child of content height 2:
remaining space is 8 and gets distributed. -/
def opsColOk : List Op :=
  [Op.mk { kind := .container, isRow := false, height := 10,
           childStart := 1, childEnd := 2 } none none none,
   Op.mk { kind := .container, parent := 0, depth := 1, flexGrow := 1 }
      none none none]

def gColOk : List Geom := [{ h := 10, contentH := 2 }, { h := 2, contentH := 2 }]

/-- A nested column tree `A{F, B{G{Text}}, Text}` (A at explicit height 20;
F and G are flex-1 columns, B a non-flex column): Phase 3's later step on
`B` reuses `A`'s full height and overwrites `B`'s height, destroying the
sum equality `A`'s own step had just established. -/
def opsNest : List Op :=
  [Op.mk { kind := .container, isRow := false, height := 20,
           childStart := 1, childEnd := 6 } none none none,
   Op.mk { kind := .container, parent := 0, depth := 1, flexGrow := 1,
           childStart := 2, childEnd := 2 } none none none,
   Op.mk { kind := .container, parent := 0, depth := 1,
           childStart := 3, childEnd := 5 } none none none,
   Op.mk { kind := .container, parent := 2, depth := 2, flexGrow := 1,
           childStart := 4, childEnd := 5 } none none none,
   Op.mk { kind := .text, parent := 3, depth := 3, staticStr := "x" }
     none none none,
   Op.mk { kind := .text, parent := 0, depth := 1, staticStr := "y" }
     none none none]

def byDepthNest : List (List Nat) := [[0], [1, 2, 5], [3], [4]]

/-- The Phase-2 geometry of `opsNest`: texts at height 1, `G` and `B` wrap
their content (height 1), the childless flex column `F` is empty, and `A`
carries its explicit height 20 over content height 2. -/
def gNest : List Geom :=
  [{ h := 20, contentH := 2 }, { h := 0 }, { h := 1, contentH := 1 },
   { h := 1, contentH := 1 }, { h := 1 }, { h := 1 }]

/-- `gNest` right after `A`'s own Phase-3 step: `F` absorbed the remaining
18 rows and the children were repositioned; the sums match `A`'s height. -/
def gNestA : List Geom :=
  [{ h := 20, contentH := 2 }, { h := 18 },
   { h := 1, localY := 18, contentH := 1 }, { h := 1, contentH := 1 },
   { h := 1 }, { h := 1, localY := 19 }]

/-- `gNestA` after the later Phase-3 step on the non-flex column `B`, whose
available height is `A`'s full height 20: `B` and `G` are blown up to 20,
so `A`'s children now sum to 39 against `A`'s height 20. -/
def gNestB : List Geom :=
  [{ h := 20, contentH := 2 }, { h := 18 },
   { h := 20, localY := 18, contentH := 1 }, { h := 20, contentH := 1 },
   { h := 1 }, { h := 1, localY := 19 }]

/-- Pointwise agreement of two op arrays below an index. -/
def agreeBelow (ops ops' : List Op) (n : Nat) : Prop :=
  ∀ j, j < n → opAt ops' j = opAt ops j

/-- Pointwise agreement of two op arrays on the index range `[s, e)`. -/
def agreeOn (ops ops' : List Op) (s e : Nat) : Prop :=
  ∀ j, s ≤ j → j < e → opAt ops' j = opAt ops j

/-- A concrete declarative tree for structural-invariant witnesses: a row
with a single static-text child. -/
def nodeW : Node := Node.row 0 {} false [Node.text (.lit "a")]

/-- The template `Build` compiles `nodeW` to: a container op bracketing
`[1, 2)` followed by its text child. -/
def tW : Template :=
  Template.mk
    [Op.mk { kind := .container, parent := -1, depth := 0, isRow := true,
             childStart := 1, childEnd := 2 } none none none,
     Op.mk { kind := .text, parent := 0, depth := 1, staticStr := "a" }
       none none none]
    [[0], [1]] 1

section Theorems

/-- C5: in Phase 1 width distribution, every text op — static, pointer-bound,
or offset-bound — receives as its width the display-cell count of the string
its binding resolves to. -/
theorem setOpWidth_text_resolved (env : Env) (op : OpCore) (g : Geom)
    (availW : Int) (eb : Option Nat) (s : String)
    (h : resolveStr env eb op = some s) :
    (setOpWidth env op g availW eb).w = cellWidth s := by
  cases hk : op.kind <;> simp [resolveStr, hk] at h
  case text => subst h; simp [setOpWidth, hk]
  case textPtr => subst h; simp [setOpWidth, hk]
  case textOff =>
    obtain ⟨b, hb, hs⟩ := h
    subst hs
    simp [setOpWidth, hk, hb]

/-- Witness for `setOpWidth_text_resolved` at a concrete offset-bound op. -/
theorem setOpWidth_text_resolved_witness :
    resolveStr env0 (some 4) { kind := .textOff, strOff := 3 } = some "ab" ∧
      (setOpWidth env0 { kind := .textOff, strOff := 3 } {} 50 (some 4)).w =
        cellWidth "ab" :=
  ⟨rfl, setOpWidth_text_resolved env0 _ {} 50 _ _ rfl⟩

theorem heightT_foldl (l : List (Op × Geom)) (a : Int) :
    l.foldl (fun acc p => if p.1.core.parent = -1 then acc + p.2.h else acc) a
      = a + (l.map fun p => if p.1.core.parent = -1 then p.2.h else 0).sum := by
  induction l generalizing a with
  | nil => simp
  | cons x l ih =>
      simp only [List.foldl_cons, List.map_cons, List.sum_cons]
      by_cases hx : x.1.core.parent = -1
      · simp [hx, ih]
        ring
      · simp [hx, ih]

theorem heightT_zip_sum (ops : List Op) (geom : List Geom)
    (h : geom.length = ops.length) :
    ((ops.zip geom).map fun p =>
        if p.1.core.parent = -1 then p.2.h else 0).sum
      = rootHeightSum ops geom := by
  induction ops generalizing geom with
  | nil => simp [rootHeightSum]
  | cons o ops ih =>
      cases geom with
      | nil => simp at h
      | cons x geom =>
          simp only [List.length_cons, Nat.succ.injEq] at h
          have hzip : ((o :: ops).zip (x :: geom)) = (o, x) :: ops.zip geom := rfl
          rw [hzip, List.map_cons, List.sum_cons, ih geom h]
          unfold rootHeightSum
          rw [List.length_cons, Finset.sum_range_succ']
          have hrest : ∀ i, (if (opAt (o :: ops) (i + 1)).parent = -1 then
              (geomAt (x :: geom) (i + 1)).h else 0)
              = (if (opAt ops i).parent = -1 then (geomAt geom i).h else 0) := by
            intro i; simp [opAt, geomAt]
          simp only [hrest]
          have h0 : (if (opAt (o :: ops) 0).parent = -1 then
              (geomAt (x :: geom) 0).h else 0)
              = (if o.core.parent = -1 then x.h else 0) := by
            simp [opAt, geomAt]
          rw [h0]
          ring

/-- C7: `Height` returns exactly the sum over all root-level ops (parent is
the `-1` sentinel) of the computed height `geom[root].h`. -/
theorem heightT_eq_rootHeightSum (ops : List Op) (geom : List Geom)
    (h : geom.length = ops.length) :
    heightT ops geom = rootHeightSum ops geom := by
  unfold heightT
  split
  · next hz =>
      have : ops.length = 0 := by omega
      simp [rootHeightSum, this]
  · rw [heightT_foldl, heightT_zip_sum ops geom h]
    simp

/-- Witness for `heightT_eq_rootHeightSum` on a three-op template with two
roots. -/
theorem heightT_eq_rootHeightSum_witness :
    ([({ h := 2 } : Geom), { h := 5 }, { h := 3 }].length
        = [Op.mk { parent := -1 } none none none,
           Op.mk { parent := 0 } none none none,
           Op.mk { parent := -1 } none none none].length) ∧
      heightT
        [Op.mk { parent := -1 } none none none,
         Op.mk { parent := 0 } none none none,
         Op.mk { parent := -1 } none none none]
        [{ h := 2 }, { h := 5 }, { h := 3 }]
      = rootHeightSum
        [Op.mk { parent := -1 } none none none,
         Op.mk { parent := 0 } none none none,
         Op.mk { parent := -1 } none none none]
        [{ h := 2 }, { h := 5 }, { h := 3 }] :=
  ⟨rfl, heightT_eq_rootHeightSum _ _ rfl⟩

theorem length_setGeom (g : List Geom) (i : Nat) (x : Geom) :
    (setGeom g i x).length = g.length :=
  List.length_set ..

theorem geomAt_setGeom_self (g : List Geom) (i : Nat) (x : Geom)
    (h : i < g.length) : geomAt (setGeom g i x) i = x := by
  simp [geomAt, setGeom, List.getD_eq_getElem?_getD, List.getElem?_set_self', h]

theorem geomAt_setGeom_ne (g : List Geom) (i j : Nat) (x : Geom)
    (h : i ≠ j) : geomAt (setGeom g i x) j = geomAt g j := by
  simp [geomAt, setGeom, List.getD_eq_getElem?_getD, List.getElem?_set_ne h]

theorem i16trunc_eq_floor (q : ℚ) (h : 0 ≤ q) : i16trunc q = ⌊q⌋ :=
  if_pos h

theorem rowPass1Step_flexTotal (env : Env) (eb : Option Nat) (ops : List Op)
    (idx : Nat) (availW : Int) (st : RowPass1) (i : Nat) :
    (rowPass1Step env eb ops idx availW st i).flexL
        = st.flexL ++ (if isFlexChild ops idx i then [i] else []) ∧
      (rowPass1Step env eb ops idx availW st i).totalFlex
        = st.totalFlex
            + (if isFlexChild ops idx i then (opAt ops i).flexGrow else 0) := by
  unfold rowPass1Step isFlexChild
  by_cases h1 : (opAt ops i).parent = (idx : Int)
  · by_cases h2 : 0 < (opAt ops i).flexGrow
    · simp [h1, h2]
    · by_cases h3 : (opAt ops i).kind = .container ∧ (opAt ops i).width = 0 ∧
          (opAt ops i).percentWidth = 0
      · simp [h1, h2, h3]
      · simp [h1, h2, h3]
  · simp [h1]

theorem rowPass1Step_g_length (env : Env) (eb : Option Nat) (ops : List Op)
    (idx : Nat) (availW : Int) (st : RowPass1) (i : Nat) :
    (rowPass1Step env eb ops idx availW st i).g.length = st.g.length := by
  unfold rowPass1Step
  by_cases h1 : (opAt ops i).parent = (idx : Int)
  · by_cases h2 : 0 < (opAt ops i).flexGrow
    · simp [h1, h2]
    · by_cases h3 : (opAt ops i).kind = .container ∧ (opAt ops i).width = 0 ∧
          (opAt ops i).percentWidth = 0
      · simp [h1, h2, h3]
      · simp [h1, h2, h3, length_setGeom]
  · simp [h1]

theorem rowPass1_foldl_spec (env : Env) (eb : Option Nat) (ops : List Op)
    (idx : Nat) (availW : Int) (l : List Nat) :
    ∀ st : RowPass1,
      (l.foldl (rowPass1Step env eb ops idx availW) st).flexL
          = st.flexL ++ l.filter (isFlexChild ops idx) ∧
        (l.foldl (rowPass1Step env eb ops idx availW) st).totalFlex
          = st.totalFlex + ((l.filter (isFlexChild ops idx)).map
              fun i => (opAt ops i).flexGrow).sum ∧
        (l.foldl (rowPass1Step env eb ops idx availW) st).g.length
          = st.g.length := by
  induction l with
  | nil => intro st; simp
  | cons i l ih =>
      intro st
      obtain ⟨ha, hb, hc⟩ := ih (rowPass1Step env eb ops idx availW st i)
      obtain ⟨hs1, hs2⟩ := rowPass1Step_flexTotal env eb ops idx availW st i
      refine ⟨?_, ?_, ?_⟩
      · rw [List.foldl_cons, ha, hs1, List.filter_cons]
        by_cases hp : isFlexChild ops idx i <;> simp [hp]
      · rw [List.foldl_cons, hb, hs2, List.filter_cons]
        by_cases hp : isFlexChild ops idx i
        · simp [hp]
          ring
        · simp [hp]
      · rw [List.foldl_cons, hc, rowPass1Step_g_length]

theorem rowFlexList_eq_filter (env : Env) (eb : Option Nat) (ops : List Op)
    (idx : Nat) (availW : Int) (g : List Geom) :
    rowFlexList env eb ops idx availW g
      = (childRange (opAt ops idx)).filter (isFlexChild ops idx) := by
  have h := (rowPass1_foldl_spec env eb ops idx availW
    (childRange (opAt ops idx)) ⟨g, 0, [], [], 0⟩).1
  simpa [rowFlexList, rowPass1] using h

theorem rowTotalFlex_eq_sum (env : Env) (eb : Option Nat) (ops : List Op)
    (idx : Nat) (availW : Int) (g : List Geom) :
    rowTotalFlex env eb ops idx availW g
      = (((childRange (opAt ops idx)).filter (isFlexChild ops idx)).map
          fun i => (opAt ops i).flexGrow).sum := by
  have h := (rowPass1_foldl_spec env eb ops idx availW
    (childRange (opAt ops idx)) ⟨g, 0, [], [], 0⟩).2.1
  simpa [rowTotalFlex, rowPass1] using h

theorem rowPass1_g_length (env : Env) (eb : Option Nat) (ops : List Op)
    (idx : Nat) (availW : Int) (g : List Geom) :
    (rowPass1 env eb ops idx availW g).g.length = g.length := by
  have h := (rowPass1_foldl_spec env eb ops idx availW
    (childRange (opAt ops idx)) ⟨g, 0, [], [], 0⟩).2.2
  simpa [rowPass1] using h

theorem rowFlexLoop_length (remaining : Int) (totalFlex : ℚ) (ops : List Op) :
    ∀ (l : List Nat) (d : Int) (g : List Geom),
      (rowFlexLoop remaining totalFlex ops l d g).length = g.length := by
  intro l
  induction l with
  | nil => intro d g; rfl
  | cons c rest ih => intro d g; rw [rowFlexLoop, ih, length_setGeom]

theorem rowFlexLoop_untouched (remaining : Int) (totalFlex : ℚ)
    (ops : List Op) :
    ∀ (l : List Nat) (d : Int) (g : List Geom) (j : Nat), j ∉ l →
      geomAt (rowFlexLoop remaining totalFlex ops l d g) j = geomAt g j := by
  intro l
  induction l with
  | nil => intro d g j _; rfl
  | cons c rest ih =>
      intro d g j hj
      rw [rowFlexLoop, ih _ _ j (fun h => hj (List.mem_cons_of_mem _ h)),
        geomAt_setGeom_ne]
      exact fun h => hj (h ▸ List.mem_cons_self c rest)

theorem flexWidths_length (remaining : Int) (totalFlex : ℚ) (ops : List Op) :
    ∀ (l : List Nat) (d : Int),
      (flexWidths remaining totalFlex ops l d).length = l.length := by
  intro l
  induction l with
  | nil => intro d; rfl
  | cons c rest ih => intro d; rw [flexWidths]; simp [ih]

theorem rowFlexLoop_w (remaining : Int) (totalFlex : ℚ) (ops : List Op) :
    ∀ (l : List Nat) (d : Int) (g : List Geom), l.Nodup →
      (∀ c ∈ l, c < g.length) → ∀ k, k < l.length →
      (geomAt (rowFlexLoop remaining totalFlex ops l d g) (l.getD k 0)).w
        = (flexWidths remaining totalFlex ops l d).getD k 0 := by
  intro l
  induction l with
  | nil => intro d g _ _ k hk; simp at hk
  | cons c rest ih =>
      intro d g hnd hb k hk
      match k with
      | 0 =>
          rw [rowFlexLoop, flexWidths]
          have hc : c ∉ rest := (List.nodup_cons.mp hnd).1
          rw [List.getD_cons_zero,
            rowFlexLoop_untouched remaining totalFlex ops rest _ _ c hc,
            geomAt_setGeom_self _ _ _ (hb c (List.mem_cons_self c rest))]
          simp [flexWidth]
      | k + 1 =>
          rw [rowFlexLoop, flexWidths]
          simp only [List.getD_cons_succ]
          exact ih _ _ (List.nodup_cons.mp hnd).2
            (fun c' hc' => by
              rw [length_setGeom]; exact hb c' (List.mem_cons_of_mem _ hc'))
            k (by simpa using hk)

theorem flexWidths_sum (remaining : Int) (totalFlex : ℚ) (ops : List Op) :
    ∀ (l : List Nat) (d : Int), l ≠ [] →
      (flexWidths remaining totalFlex ops l d).sum = remaining - d := by
  intro l
  induction l with
  | nil => intro d h; exact absurd rfl h
  | cons c rest ih =>
      intro d _
      cases rest with
      | nil => simp [flexWidths]
      | cons c' rest' =>
          rw [flexWidths]
          simp only [List.isEmpty_cons, List.sum_cons]
          rw [ih _ (by simp)]
          simp
          ring

theorem flexWidths_getD_nonlast (remaining : Int) (totalFlex : ℚ)
    (ops : List Op) :
    ∀ (l : List Nat) (d : Int) (k : Nat), k + 1 < l.length →
      (flexWidths remaining totalFlex ops l d).getD k 0
        = flexWidth remaining totalFlex ops (l.getD k 0) := by
  intro l
  induction l with
  | nil => intro d k hk; simp at hk
  | cons c rest ih =>
      intro d k hk
      match k with
      | 0 =>
          rw [flexWidths]
          have : ¬ rest.isEmpty := by
            cases rest
            · simp at hk
            · simp
          simp [this]
      | k + 1 =>
          rw [flexWidths]
          simp only [List.getD_cons_succ]
          exact ih _ k (by simpa using hk)

theorem rowFlexLoop_map_w (remaining : Int) (totalFlex : ℚ) (ops : List Op) :
    ∀ (l : List Nat) (d : Int) (g : List Geom), l.Nodup →
      (∀ c ∈ l, c < g.length) →
      (l.map fun c =>
          (geomAt (rowFlexLoop remaining totalFlex ops l d g) c).w)
        = flexWidths remaining totalFlex ops l d := by
  intro l
  induction l with
  | nil => intro d g _ _; rfl
  | cons c rest ih =>
      intro d g hnd hb
      rw [rowFlexLoop, flexWidths]
      have hc : c ∉ rest := (List.nodup_cons.mp hnd).1
      simp only [List.map_cons, flexWidth, List.cons.injEq]
      constructor
      · rw [rowFlexLoop_untouched remaining totalFlex ops rest _ _ c hc,
          geomAt_setGeom_self _ _ _ (hb c (List.mem_cons_self c rest))]
      · exact ih _ _ (List.nodup_cons.mp hnd).2
          (fun c' hc' => by
            rw [length_setGeom]; exact hb c' (List.mem_cons_of_mem _ hc'))

theorem rowFlexList_nodup (env : Env) (eb : Option Nat) (ops : List Op)
    (idx : Nat) (availW : Int) (g : List Geom) :
    (rowFlexList env eb ops idx availW g).Nodup := by
  rw [rowFlexList_eq_filter]
  exact List.Nodup.filter _ (by unfold childRange; exact List.nodup_range' _ _)

theorem rowFlexList_bounds (env : Env) (eb : Option Nat) (ops : List Op)
    (idx : Nat) (availW : Int) (g : List Geom)
    (hb : (opAt ops idx).childEnd ≤ g.length) :
    ∀ c ∈ rowFlexList env eb ops idx availW g,
      c < (rowPass1 env eb ops idx availW g).g.length := by
  intro c hc
  rw [rowPass1_g_length]
  rw [rowFlexList_eq_filter] at hc
  have hcr := List.mem_of_mem_filter hc
  unfold childRange at hcr
  have := List.mem_range'_1.mp hcr
  omega

theorem rowFlexList_pos (env : Env) (eb : Option Nat) (ops : List Op)
    (idx : Nat) (availW : Int) (g : List Geom) :
    ∀ c ∈ rowFlexList env eb ops idx availW g,
      0 < (opAt ops c).flexGrow := by
  intro c hc
  rw [rowFlexList_eq_filter] at hc
  have h := List.of_mem_filter hc
  simp [isFlexChild] at h
  exact h.2

theorem rowFlexList_ne_nil (env : Env) (eb : Option Nat) (ops : List Op)
    (idx : Nat) (availW : Int) (g : List Geom)
    (hF : 0 < rowTotalFlex env eb ops idx availW g) :
    rowFlexList env eb ops idx availW g ≠ [] := by
  intro h0
  have he : (childRange (opAt ops idx)).filter (isFlexChild ops idx) = [] := by
    rw [← rowFlexList_eq_filter env eb ops idx availW g]
    exact h0
  rw [rowTotalFlex_eq_sum, he] at hF
  simp at hF

theorem distributeRow_eq_flexLoop (env : Env) (eb : Option Nat)
    (ops : List Op) (g : List Geom) (idx : Nat) (availW : Int)
    (hR : 0 < rowRemaining env eb ops idx availW g)
    (hF : 0 < rowTotalFlex env eb ops idx availW g) :
    distributeRowChildWidths env eb ops g idx availW
      = rowFlexLoop (rowRemaining env eb ops idx availW g)
          (rowTotalFlex env eb ops idx availW g) ops
          (rowFlexList env eb ops idx availW g) 0
          (rowPass1 env eb ops idx availW g).g := by
  have hcond : 0 < availW - rowUsedWithGaps (opAt ops idx)
        (directChildCount ops idx)
        (rowPass1 env eb ops idx availW g).usedW ∧
      0 < (rowPass1 env eb ops idx availW g).totalFlex := ⟨hR, hF⟩
  simp only [distributeRowChildWidths]
  rw [if_pos hcond]
  rfl

/-- C2: for a row whose explicit-flex children have total flex `F > 0` and
whose remaining width `R` (available minus fixed widths and gap cost) is
positive, every flex child except the last receives
`floor(R * flex_grow / F)`, the flex children's widths sum to exactly `R`,
and the last flex child receives `R` minus the widths already
distributed. -/
theorem distributeRowChildWidths_flex_exact (env : Env) (eb : Option Nat)
    (ops : List Op) (g : List Geom) (idx : Nat) (availW : Int)
    (hb : (opAt ops idx).childEnd ≤ g.length)
    (hR : 0 < rowRemaining env eb ops idx availW g)
    (hF : 0 < rowTotalFlex env eb ops idx availW g) :
    (∀ k, k + 1 < (rowFlexList env eb ops idx availW g).length →
        (geomAt (distributeRowChildWidths env eb ops g idx availW)
            ((rowFlexList env eb ops idx availW g).getD k 0)).w
          = ⌊(rowRemaining env eb ops idx availW g : ℚ)
              * ((opAt ops ((rowFlexList env eb ops idx availW g).getD k 0)).flexGrow
                  / rowTotalFlex env eb ops idx availW g)⌋) ∧
      ((rowFlexList env eb ops idx availW g).map fun c =>
          (geomAt (distributeRowChildWidths env eb ops g idx availW) c).w).sum
        = rowRemaining env eb ops idx availW g ∧
      ∀ hne : rowFlexList env eb ops idx availW g ≠ [],
        (geomAt (distributeRowChildWidths env eb ops g idx availW)
            ((rowFlexList env eb ops idx availW g).getLast hne)).w
          = rowRemaining env eb ops idx availW g
            - ((rowFlexList env eb ops idx availW g).dropLast.map fun c =>
                (geomAt (distributeRowChildWidths env eb ops g idx availW) c).w).sum := by
  have hnd := rowFlexList_nodup env eb ops idx availW g
  have hbs := rowFlexList_bounds env eb ops idx availW g hb
  have hmap : ((rowFlexList env eb ops idx availW g).map fun c =>
      (geomAt (distributeRowChildWidths env eb ops g idx availW) c).w)
      = flexWidths (rowRemaining env eb ops idx availW g)
          (rowTotalFlex env eb ops idx availW g) ops
          (rowFlexList env eb ops idx availW g) 0 := by
    rw [distributeRow_eq_flexLoop env eb ops g idx availW hR hF]
    exact rowFlexLoop_map_w _ _ ops _ 0 _ hnd hbs
  have hsum : ((rowFlexList env eb ops idx availW g).map fun c =>
      (geomAt (distributeRowChildWidths env eb ops g idx availW) c).w).sum
      = rowRemaining env eb ops idx availW g := by
    rw [hmap, flexWidths_sum _ _ ops _ 0
      (rowFlexList_ne_nil env eb ops idx availW g hF)]
    simp
  refine ⟨?_, hsum, ?_⟩
  · intro k hk
    rw [distributeRow_eq_flexLoop env eb ops g idx availW hR hF,
      rowFlexLoop_w _ _ ops _ 0 _ hnd hbs k (by omega),
      flexWidths_getD_nonlast _ _ ops _ 0 k hk]
    unfold flexWidth
    rw [i16trunc_eq_floor]
    have hklt : k < (rowFlexList env eb ops idx availW g).length := by omega
    have hmem : (rowFlexList env eb ops idx availW g).getD k 0
        ∈ rowFlexList env eb ops idx availW g := by
      rw [List.getD_eq_getElem?_getD, List.getElem?_eq_getElem hklt]
      exact List.get_mem _ k hklt
    have hfg := rowFlexList_pos env eb ops idx availW g _ hmem
    have hRq : (0 : ℚ) ≤ (rowRemaining env eb ops idx availW g : ℚ) := by
      exact_mod_cast le_of_lt hR
    exact mul_nonneg hRq (le_of_lt (div_pos hfg hF))
  · intro hne
    have hdec := List.dropLast_append_getLast hne
    have hs := hsum
    rw [← hdec, List.map_append, List.sum_append] at hs
    simp only [List.map_cons, List.map_nil, List.sum_cons, List.sum_nil,
      add_zero] at hs
    omega

/-- C6: in the main render walk, an offset-bound text op performs no buffer
writes — top-level offset-bound text does not render (the source's
`OpTextOff` arm is the explicit no-op "For now, skip"). -/
theorem renderOp_textOff_no_writes (fuel : Nat) (env : Env)
    (sls : Nat → SlState) (ops : List Op) (gt : GTree) (idx : Nat)
    (gx gy maxW : Int) (h : (opAt ops idx).kind = .textOff) :
    renderOp fuel env sls ops gt idx gx gy maxW = [] := by
  match fuel with
  | 0 => rfl
  | fuel + 1 =>
      rw [renderOp]
      split
      · rfl
      · simp only [h]

/-- Witness for `renderOp_textOff_no_writes` at a concrete one-op
template. -/
theorem renderOp_textOff_no_writes_witness :
    (opAt [Op.mk { kind := .textOff, strOff := 2 } none none none] 0).kind
        = OpKind.textOff ∧
      renderOp 5 env0 (fun _ => {})
        [Op.mk { kind := .textOff, strOff := 2 } none none none]
        (GTree.mk [{}] [default]) 0 0 0 80 = [] :=
  ⟨rfl, renderOp_textOff_no_writes 5 env0 (fun _ => {}) _ _ 0 0 0 80 rfl⟩

/-- C10 counterexample: the claim "every progress op — static,
pointer-bound, or offset-bound alike — writes a progress bar" fails in the
main render walk: an offset-bound progress op has no arm in `renderOp`'s
switch and emits no write at all. -/
theorem renderOp_progressOff_no_bar :
    renderOp 1 env0 (fun _ => {})
        [Op.mk { kind := .progressOff, width := 20 } none none none]
        (GTree.mk [{}] [default]) 0 0 0 80 = [] ∧
      ∀ r : ℚ, renderOp 1 env0 (fun _ => {})
        [Op.mk { kind := .progressOff, width := 20 } none none none]
        (GTree.mk [{}] [default]) 0 0 0 80 ≠ [.bar 0 0 20 r] :=
  ⟨rfl, fun _ h => List.noConfusion h⟩

/-- C10 (amended): every progress op in the sub-template render walk —
static, pointer-bound or offset-bound — writes exactly one progress bar of
width `Op.Width` and fill ratio `value / 100` (so value 0 gives ratio 0 and
value 100 gives ratio 1); in the main render walk the static and
pointer-bound variants do the same, while the offset-bound variant writes
nothing. -/
theorem renderProgress_bars (fuel : Nat) (env : Env) (sls : Nat → SlState)
    (ops : List Op) (gt : GTree) (idx : Nat) (gx gy maxW : Int)
    (eb : Nat) (hidx : idx < ops.length) :
    ((opAt ops idx).kind = .progress →
        renderSubOp (fuel + 1) env sls ops gt idx gx gy maxW eb
          = [.bar (gx + (geomAt gt.geoms idx).localX)
              (gy + (geomAt gt.geoms idx).localY) (opAt ops idx).width
              (((opAt ops idx).staticInt : ℚ) / 100)] ∧
        renderOp (fuel + 1) env sls ops gt idx gx gy maxW
          = [.bar (gx + (geomAt gt.geoms idx).localX)
              (gy + (geomAt gt.geoms idx).localY) (opAt ops idx).width
              (((opAt ops idx).staticInt : ℚ) / 100)]) ∧
      ((opAt ops idx).kind = .progressPtr →
        renderSubOp (fuel + 1) env sls ops gt idx gx gy maxW eb
          = [.bar (gx + (geomAt gt.geoms idx).localX)
              (gy + (geomAt gt.geoms idx).localY) (opAt ops idx).width
              ((env.intAt (opAt ops idx).intPtr : ℚ) / 100)] ∧
        renderOp (fuel + 1) env sls ops gt idx gx gy maxW
          = [.bar (gx + (geomAt gt.geoms idx).localX)
              (gy + (geomAt gt.geoms idx).localY) (opAt ops idx).width
              ((env.intAt (opAt ops idx).intPtr : ℚ) / 100)]) ∧
      ((opAt ops idx).kind = .progressOff →
        renderSubOp (fuel + 1) env sls ops gt idx gx gy maxW eb
          = [.bar (gx + (geomAt gt.geoms idx).localX)
              (gy + (geomAt gt.geoms idx).localY) (opAt ops idx).width
              ((env.intAt (eb + (opAt ops idx).intOff) : ℚ) / 100)] ∧
        renderOp (fuel + 1) env sls ops gt idx gx gy maxW = []) := by
  refine ⟨fun h => ⟨?_, ?_⟩, fun h => ⟨?_, ?_⟩, fun h => ⟨?_, ?_⟩⟩
  all_goals simp only [renderOp, renderSubOp]
  all_goals simp [h, Nat.not_le.mpr hidx]

/-- Witness for `renderProgress_bars` at a concrete offset-bound progress
op in a sub-template. -/
theorem renderProgress_bars_witness :
    renderSubOp 3 env0 (fun _ => {})
        [Op.mk { kind := .progressOff, width := 20, intOff := 1 } none none none]
        (GTree.mk [{}] [default]) 0 0 0 80 6
      = [.bar 0 0 20 ((env0.intAt 7 : ℚ) / 100)] :=
  ((renderProgress_bars 2 env0 (fun _ => {})
      [Op.mk { kind := .progressOff, width := 20, intOff := 1 } none none none]
      (GTree.mk [{}] [default]) 0 0 0 80 6 (by decide)).2.2 rfl).1

theorem opsRow_totalFlex_pos : 0 < rowTotalFlex env0 none opsRow 0 30 gz3 := by
  rw [rowTotalFlex_eq_sum]
  norm_num [childRange, opAt, opsRow, isFlexChild, List.range', Op.core,
    List.filter_cons, decide_eq_true_eq, List.getElem?_cons_succ,
    List.getElem?_cons_zero, List.getD]

/-- C8: a selection-list op's height is `max(visible_count, 1)` where
`visible_count` is the sequence length capped at `MaxVisible` when
`MaxVisible > 0`; layout also clamps the caller-owned windowing offset so
that the selected index stays inside the visible window. -/
theorem layoutSelList_spec (env : Env) (op : OpCore) (g : Geom)
    (sl : SlState) (a : Nat) (hsel : op.selectedPtr = some a) :
    ((layoutSelList env op g sl).1.h
        = max (min ((env.sliceAt op.slicePtr).len : Int)
            (if 0 < env.slMaxVisible op.slAddr then env.slMaxVisible op.slAddr
             else ((env.sliceAt op.slicePtr).len : Int))) 1) ∧
      (0 < env.slMaxVisible op.slAddr →
        (layoutSelList env op g sl).2.offset ≤ env.intAt a ∧
          env.intAt a
            < (layoutSelList env op g sl).2.offset
                + env.slMaxVisible op.slAddr) := by
  unfold layoutSelList
  rw [hsel]
  constructor
  · simp only []
    split
    · next hlt =>
        split
        · next hz => omega
        · next hz => omega
    · next hge =>
        split
        · next hz => omega
        · next hz => omega
  · intro hmv
    simp only [ensureVisible]
    rw [if_neg (by omega)]
    split
    · next hlt => constructor <;> omega
    · next hge =>
        split
        · next hwin => constructor <;> omega
        · next hwin => constructor <;> omega

/-- Witness for `layoutSelList_spec`: list of length 5, window 2, selected
index 4 — height 2 and the offset window slides to contain index 4. -/
theorem layoutSelList_spec_witness :
    (layoutSelList envSel opSel {} {}).1.h = 2 ∧
      (layoutSelList envSel opSel {} {}).2.offset ≤ 4 ∧
      (4 : Int) < (layoutSelList envSel opSel {} {}).2.offset + 2 := by
  have h := layoutSelList_spec envSel opSel {} {} 7 rfl
  have h2 := h.2 (by decide)
  exact ⟨h.1.trans (by decide), h2.1.trans_eq (by decide),
    by have := h2.2; revert this; decide⟩

/-- Witness for `distributeRowChildWidths_flex_exact`: a width-30 row with
flex-1 and flex-2 children distributes exactly the remaining 30 cells. -/
theorem distributeRowChildWidths_flex_exact_witness :
    ((rowFlexList env0 none opsRow 0 30 gz3).map fun c =>
        (geomAt (distributeRowChildWidths env0 none opsRow gz3 0 30) c).w).sum
      = rowRemaining env0 none opsRow 0 30 gz3 :=
  (distributeRowChildWidths_flex_exact env0 none opsRow gz3 0 30 (by decide)
    (by decide) opsRow_totalFlex_pos).2.1

theorem sum_map_split (l : List Nat) (p : Nat → Bool) (f : Nat → Int) :
    (l.map f).sum
      = ((l.filter p).map f).sum + ((l.filter fun i => ! p i).map f).sum := by
  induction l with
  | nil => simp
  | cons a l ih =>
      by_cases hp : p a
      · simp [hp, ih]
        ring
      · simp [hp, ih]
        ring

theorem contentH_setGeom_h (g : List Geom) (c : Nat) (x : Int) (j : Nat) :
    (geomAt (setGeom g c { geomAt g c with h := x }) j).contentH
      = (geomAt g j).contentH := by
  by_cases hc : c < g.length
  · by_cases hj : c = j
    · subst hj
      rw [geomAt_setGeom_self _ _ _ hc]
    · rw [geomAt_setGeom_ne _ _ _ _ hj]
  · rw [setGeom, List.set_eq_of_length_le (by omega)]

theorem h_setGeom_localY (g : List Geom) (c : Nat) (y : Int) (j : Nat) :
    (geomAt (setGeom g c { geomAt g c with localY := y }) j).h
      = (geomAt g j).h := by
  by_cases hc : c < g.length
  · by_cases hj : c = j
    · subst hj
      rw [geomAt_setGeom_self _ _ _ hc]
    · rw [geomAt_setGeom_ne _ _ _ _ hj]
  · rw [setGeom, List.set_eq_of_length_le (by omega)]

theorem colPassStep_char (env : Env) (ops : List Op) (g : List Geom)
    (idx : Nat) (st : ColPass) (i : Nat) :
    (colPassStep env ops g idx st i).usedH
        = st.usedH + (if (opAt ops i).parent = (idx : Int) then
            (if isColFlex env ops i then (geomAt g i).contentH
             else (geomAt g i).h) else 0) ∧
      (colPassStep env ops g idx st i).flexL
        = st.flexL ++ (if (opAt ops i).parent = (idx : Int)
            ∧ isColFlex env ops i then [i] else []) ∧
      (colPassStep env ops g idx st i).flexG
        = st.flexG ++ (if (opAt ops i).parent = (idx : Int)
            ∧ isColFlex env ops i then [colFlexVal env ops i] else []) ∧
      (colPassStep env ops g idx st i).totalFlex
        = st.totalFlex + (if (opAt ops i).parent = (idx : Int)
            ∧ isColFlex env ops i then colFlexVal env ops i else 0) := by
  unfold colPassStep
  by_cases h1 : (opAt ops i).parent = (idx : Int)
  · by_cases h2 : (opAt ops i).kind = .container ∧ 0 < (opAt ops i).flexGrow
    · have hflex : isColFlex env ops i = true := by
        simp [isColFlex, h2.1, h2.2]
      have hval : colFlexVal env ops i = (opAt ops i).flexGrow := by
        simp [colFlexVal, h2.1]
      simp [h1, h2, hflex, hval]
    · by_cases h3 : (opAt ops i).kind = .ifOp
          ∧ 0 < getIfFlexGrow env (subAt ops i)
      · have hnc : (opAt ops i).kind ≠ .container := by
          rw [h3.1]; intro hx; exact OpKind.noConfusion hx
        have hflex : isColFlex env ops i = true := by
          simp [isColFlex, h3.1, h3.2]
        have hval : colFlexVal env ops i = getIfFlexGrow env (subAt ops i) := by
          simp [colFlexVal, hnc]
        simp [h1, h2, h3, hflex, hval]
      · have hflex : isColFlex env ops i = false := by
          simp only [isColFlex, Bool.or_eq_false_iff, Bool.and_eq_false_iff]
          constructor
          · by_cases hk : (opAt ops i).kind = .container
            · right; simp only [decide_eq_false_iff_not]
              intro hpos; exact h2 ⟨hk, hpos⟩
            · left; simp [hk]
          · by_cases hk : (opAt ops i).kind = .ifOp
            · right; simp only [decide_eq_false_iff_not]
              intro hpos; exact h3 ⟨hk, hpos⟩
            · left; simp [hk]
        simp [h1, h2, h3, hflex]
  · simp [h1]

theorem colPass_foldl_char (env : Env) (ops : List Op) (g : List Geom)
    (idx : Nat) (l : List Nat) :
    ∀ st : ColPass,
      ((l.foldl (colPassStep env ops g idx) st).usedH
        = st.usedH
            + ((l.filter fun i =>
                decide ((opAt ops i).parent = (idx : Int))).map fun i =>
                if isColFlex env ops i then (geomAt g i).contentH
                else (geomAt g i).h).sum) ∧
      ((l.foldl (colPassStep env ops g idx) st).flexL
        = st.flexL ++ l.filter fun i =>
            decide ((opAt ops i).parent = (idx : Int))
              && isColFlex env ops i) ∧
      ((l.foldl (colPassStep env ops g idx) st).flexG
        = st.flexG ++ (l.filter fun i =>
            decide ((opAt ops i).parent = (idx : Int))
              && isColFlex env ops i).map (colFlexVal env ops)) ∧
      ((l.foldl (colPassStep env ops g idx) st).totalFlex
        = st.totalFlex + ((l.filter fun i =>
            decide ((opAt ops i).parent = (idx : Int))
              && isColFlex env ops i).map (colFlexVal env ops)).sum) := by
  induction l with
  | nil => intro st; simp
  | cons i l ih =>
      intro st
      obtain ⟨ha, hb, hc, hd⟩ := ih (colPassStep env ops g idx st i)
      obtain ⟨hs1, hs2, hs3, hs4⟩ := colPassStep_char env ops g idx st i
      simp only [List.foldl_cons, List.filter_cons]
      by_cases h1 : (opAt ops i).parent = (idx : Int)
      · by_cases h2 : isColFlex env ops i
        · refine ⟨?_, ?_, ?_, ?_⟩
          · rw [ha, hs1]
            simp [h1, h2]
            ring
          · rw [hb, hs2]
            simp [h1, h2]
          · rw [hc, hs3]
            simp [h1, h2]
          · rw [hd, hs4]
            simp [h1, h2]
            ring
        · refine ⟨?_, ?_, ?_, ?_⟩
          · rw [ha, hs1]
            simp [h1, h2]
            ring
          · rw [hb, hs2]
            simp [h1, h2]
          · rw [hc, hs3]
            simp [h1, h2]
          · rw [hd, hs4]
            simp [h1, h2]
      · refine ⟨?_, ?_, ?_, ?_⟩
        · rw [ha, hs1]
          simp [h1]
        · rw [hb, hs2]
          simp [h1]
        · rw [hc, hs3]
          simp [h1]
        · rw [hd, hs4]
          simp [h1]

theorem colPass_usedH (env : Env) (ops : List Op) (g : List Geom)
    (idx : Nat) :
    (colPass env ops g idx).usedH
      = ((childList ops idx).map fun i =>
          if isColFlex env ops i then (geomAt g i).contentH
          else (geomAt g i).h).sum := by
  have h := (colPass_foldl_char env ops g idx (childRange (opAt ops idx))
    ⟨0, [], [], 0⟩).1
  simpa [colPass, childList] using h

theorem colPass_flexL (env : Env) (ops : List Op) (g : List Geom)
    (idx : Nat) :
    (colPass env ops g idx).flexL
      = (childList ops idx).filter (isColFlex env ops) := by
  have h := (colPass_foldl_char env ops g idx (childRange (opAt ops idx))
    ⟨0, [], [], 0⟩).2.1
  have h1 : (colPass env ops g idx).flexL
      = (childRange (opAt ops idx)).filter fun i =>
          decide ((opAt ops i).parent = (idx : Int)) && isColFlex env ops i := by
    simpa [colPass] using h
  rw [h1, childList, List.filter_filter]
  exact List.filter_congr fun a _ => Bool.and_comm _ _

theorem colPass_flexG (env : Env) (ops : List Op) (g : List Geom)
    (idx : Nat) :
    (colPass env ops g idx).flexG
      = (colPass env ops g idx).flexL.map (colFlexVal env ops) := by
  have h2 := (colPass_foldl_char env ops g idx (childRange (opAt ops idx))
    ⟨0, [], [], 0⟩).2.2.1
  have h1 := (colPass_foldl_char env ops g idx (childRange (opAt ops idx))
    ⟨0, [], [], 0⟩).2.1
  have e1 : (colPass env ops g idx).flexG
      = ((childRange (opAt ops idx)).filter fun i =>
          decide ((opAt ops i).parent = (idx : Int))
            && isColFlex env ops i).map (colFlexVal env ops) := by
    simpa [colPass] using h2
  have e2 : (colPass env ops g idx).flexL
      = (childRange (opAt ops idx)).filter fun i =>
          decide ((opAt ops i).parent = (idx : Int)) && isColFlex env ops i := by
    simpa [colPass] using h1
  rw [e1, e2]

theorem colPass_totalFlex (env : Env) (ops : List Op) (g : List Geom)
    (idx : Nat) :
    (colPass env ops g idx).totalFlex
      = ((colPass env ops g idx).flexL.map (colFlexVal env ops)).sum := by
  have h3 := (colPass_foldl_char env ops g idx (childRange (opAt ops idx))
    ⟨0, [], [], 0⟩).2.2.2
  have h1 := (colPass_foldl_char env ops g idx (childRange (opAt ops idx))
    ⟨0, [], [], 0⟩).2.1
  have e2 : (colPass env ops g idx).flexL
      = (childRange (opAt ops idx)).filter fun i =>
          decide ((opAt ops i).parent = (idx : Int)) && isColFlex env ops i := by
    simpa [colPass] using h1
  have e3 : (colPass env ops g idx).totalFlex
      = (((childRange (opAt ops idx)).filter fun i =>
          decide ((opAt ops i).parent = (idx : Int))
            && isColFlex env ops i).map (colFlexVal env ops)).sum := by
    simpa [colPass] using h3
  rw [e3, e2]

theorem colFlexLoop_length (remaining : Int) (totalFlex : ℚ) :
    ∀ (ps : List (Nat × ℚ)) (d : Int) (g : List Geom),
      (colFlexLoop remaining totalFlex ps d g).length = g.length := by
  intro ps
  induction ps with
  | nil => intro d g; rfl
  | cons p rest ih =>
      intro d g
      rw [colFlexLoop, ih, length_setGeom]

theorem colFlexLoop_untouched (remaining : Int) (totalFlex : ℚ) :
    ∀ (ps : List (Nat × ℚ)) (d : Int) (g : List Geom) (j : Nat),
      j ∉ ps.map Prod.fst →
      geomAt (colFlexLoop remaining totalFlex ps d g) j = geomAt g j := by
  intro ps
  induction ps with
  | nil => intro d g j _; rfl
  | cons p rest ih =>
      intro d g j hj
      simp only [List.map_cons, List.mem_cons, not_or] at hj
      rw [colFlexLoop, ih _ _ j (by simpa using hj.2), geomAt_setGeom_ne]
      exact fun h => hj.1 h.symm

theorem colFlexLoop_contentH (remaining : Int) (totalFlex : ℚ) :
    ∀ (ps : List (Nat × ℚ)) (d : Int) (g : List Geom) (j : Nat),
      (geomAt (colFlexLoop remaining totalFlex ps d g) j).contentH
        = (geomAt g j).contentH := by
  intro ps
  induction ps with
  | nil => intro d g j; rfl
  | cons p rest ih =>
      intro d g j
      rw [colFlexLoop, ih, contentH_setGeom_h]

theorem colNewHeights_congr (remaining : Int) (totalFlex : ℚ) :
    ∀ (ps : List (Nat × ℚ)) (d : Int) (g g' : List Geom),
      (∀ j, (geomAt g' j).contentH = (geomAt g j).contentH) →
      colNewHeights remaining totalFlex g' ps d
        = colNewHeights remaining totalFlex g ps d := by
  intro ps
  induction ps with
  | nil => intro d g g' _; rfl
  | cons p rest ih =>
      intro d g g' hcong
      rw [colNewHeights, colNewHeights, hcong p.1, ih _ _ _ hcong]

theorem colFlexLoop_map_h (remaining : Int) (totalFlex : ℚ) :
    ∀ (ps : List (Nat × ℚ)) (d : Int) (g : List Geom),
      (ps.map Prod.fst).Nodup → (∀ p ∈ ps, p.1 < g.length) →
      ((ps.map Prod.fst).map fun c =>
          (geomAt (colFlexLoop remaining totalFlex ps d g) c).h)
        = colNewHeights remaining totalFlex g ps d := by
  intro ps
  induction ps with
  | nil => intro d g _ _; rfl
  | cons p rest ih =>
      intro d g hnd hb
      rw [List.map_cons] at hnd
      rw [colFlexLoop, colNewHeights]
      have hc : p.1 ∉ rest.map Prod.fst := (List.nodup_cons.mp hnd).1
      simp only [List.map_cons, List.cons.injEq]
      constructor
      · rw [colFlexLoop_untouched remaining totalFlex rest _ _ p.1 hc,
          geomAt_setGeom_self _ _ _ (hb p (List.mem_cons_self p rest))]
      · rw [ih _ _ (List.nodup_cons.mp hnd).2
          (fun q hq => by
            rw [length_setGeom]; exact hb q (List.mem_cons_of_mem _ hq))]
        exact colNewHeights_congr remaining totalFlex rest _ g _
          fun j => contentH_setGeom_h g p.1 _ j

theorem colNewHeights_sum (remaining : Int) (totalFlex : ℚ) (g : List Geom) :
    ∀ (ps : List (Nat × ℚ)) (d : Int), ps ≠ [] →
      (colNewHeights remaining totalFlex g ps d).sum
        = ((ps.map Prod.fst).map fun c => (geomAt g c).contentH).sum
            + (remaining - d) := by
  intro ps
  induction ps with
  | nil => intro d h; exact absurd rfl h
  | cons p rest ih =>
      intro d _
      cases rest with
      | nil => simp [colNewHeights]
      | cons q rest' =>
          rw [colNewHeights]
          simp only [List.isEmpty_cons, List.map_cons, List.sum_cons]
          rw [ih _ (by simp)]
          simp only [List.map_cons, List.sum_cons]
          ring

theorem colResweepStep_h (ops : List Op) (idx : Nat) (op : OpCore)
    (acc : List Geom × Int × Bool) (i j : Nat) :
    (geomAt (colResweepStep ops idx op acc i).1 j).h
      = (geomAt acc.1 j).h := by
  unfold colResweepStep
  by_cases h1 : (opAt ops i).parent = (idx : Int)
  · simp only [h1]
    simp [h_setGeom_localY]
  · simp [h1]

theorem colResweepStep_length (ops : List Op) (idx : Nat) (op : OpCore)
    (acc : List Geom × Int × Bool) (i : Nat) :
    (colResweepStep ops idx op acc i).1.length = acc.1.length := by
  unfold colResweepStep
  by_cases h1 : (opAt ops i).parent = (idx : Int)
  · simp only [h1]
    simp [length_setGeom]
  · simp [h1]

theorem colResweep_foldl_h (ops : List Op) (idx : Nat) (op : OpCore) :
    ∀ (l : List Nat) (acc : List Geom × Int × Bool) (j : Nat),
      (geomAt (l.foldl (colResweepStep ops idx op) acc).1 j).h
        = (geomAt acc.1 j).h := by
  intro l
  induction l with
  | nil => intro acc j; rfl
  | cons i l ih =>
      intro acc j
      rw [List.foldl_cons, ih, colResweepStep_h]

theorem colResweep_h (ops : List Op) (idx : Nat) (op : OpCore)
    (g : List Geom) (j : Nat) :
    (geomAt (colResweep ops idx op g) j).h = (geomAt g j).h := by
  unfold colResweep
  rw [colResweep_foldl_h]

theorem colResweep_foldl_length (ops : List Op) (idx : Nat) (op : OpCore) :
    ∀ (l : List Nat) (acc : List Geom × Int × Bool),
      (l.foldl (colResweepStep ops idx op) acc).1.length = acc.1.length := by
  intro l
  induction l with
  | nil => intro acc; rfl
  | cons i l ih =>
      intro acc
      rw [List.foldl_cons, ih, colResweepStep_length]

theorem colResweep_length (ops : List Op) (idx : Nat) (op : OpCore)
    (g : List Geom) : (colResweep ops idx op g).length = g.length := by
  unfold colResweep
  rw [colResweep_foldl_length]

theorem childList_nodup (ops : List Op) (idx : Nat) :
    (childList ops idx).Nodup :=
  List.Nodup.filter _ (by unfold childRange; exact List.nodup_range' _ _)

theorem childList_mem_lt (ops : List Op) (idx : Nat) (n : Nat)
    (hb : (opAt ops idx).childEnd ≤ n) :
    ∀ i ∈ childList ops idx, i < n := by
  intro i hi
  have hcr := List.mem_of_mem_filter hi
  unfold childRange at hcr
  have := List.mem_range'_1.mp hcr
  omega

theorem childList_mem_gt (ops : List Op) (idx : Nat)
    (hcs : idx < (opAt ops idx).childStart) :
    ∀ i ∈ childList ops idx, idx < i := by
  intro i hi
  have hcr := List.mem_of_mem_filter hi
  unfold childRange at hcr
  have := List.mem_range'_1.mp hcr
  omega

theorem directChildCount_eq_length (ops : List Op) (idx : Nat) :
    directChildCount ops idx = (childList ops idx).length := by
  unfold directChildCount childList
  rw [List.countP_eq_length_filter]

/-- C3 (amended): immediately after a column container's own
flex-distribution step of Phase 3 (`distributeFlexInCol`), if the container
has at least one flex child (total flex positive) and positive remaining
space, the direct children's heights plus `gap * (n-1)` sum to the
container's height minus its border inset.  The equality need not survive
to the end of Phase 3: a later step on a non-flex descendant column reuses
its parent's full height as available space and overwrites that child's
height (see the counterexample). -/
theorem distributeFlexInCol_sum (env : Env) (ops : List Op) (g : List Geom)
    (idx : Nat) (rootH : Int)
    (_hkind : (opAt ops idx).kind = .container)
    (_hcol : (opAt ops idx).isRow = false)
    (hb : (opAt ops idx).childEnd ≤ g.length)
    (hidx : idx < g.length)
    (hcs : idx < (opAt ops idx).childStart)
    (hgap : 0 ≤ (opAt ops idx).gap)
    (hR : 0 < colAvailH ops g idx rootH
        - rowUsedWithGaps (opAt ops idx) (directChildCount ops idx)
            (colPass env ops g idx).usedH)
    (hF : 0 < (colPass env ops g idx).totalFlex) :
    ((childList ops idx).map fun i =>
        (geomAt (distributeFlexInCol env ops g idx rootH) i).h).sum
      + (opAt ops idx).gap * ((directChildCount ops idx : Int) - 1)
      = (geomAt (distributeFlexInCol env ops g idx rootH) idx).h
        - (if (opAt ops idx).border then 2 else 0) := by
  have hflexL := colPass_flexL env ops g idx
  have hflexG := colPass_flexG env ops g idx
  have htotal := colPass_totalFlex env ops g idx
  have husedH := colPass_usedH env ops g idx
  have hFne : (colPass env ops g idx).flexL ≠ [] := by
    intro h0
    rw [htotal, h0] at hF
    simp at hF
  have hn : 1 ≤ directChildCount ops idx := by
    rw [directChildCount_eq_length]
    rcases hx : childList ops idx with _ | ⟨a, l⟩
    · rw [hflexL, hx] at hFne
      simp at hFne
    · simp
  have hcond : 0 < colAvailH ops g idx rootH
      - rowUsedWithGaps (opAt ops idx) (directChildCount ops idx)
          (colPass env ops g idx).usedH ∧
      0 < (colPass env ops g idx).totalFlex := ⟨hR, hF⟩
  have hdist : distributeFlexInCol env ops g idx rootH
      = setGeom
          (colResweep ops idx (opAt ops idx)
            (colFlexLoop
              (colAvailH ops g idx rootH
                - rowUsedWithGaps (opAt ops idx) (directChildCount ops idx)
                    (colPass env ops g idx).usedH)
              (colPass env ops g idx).totalFlex
              ((colPass env ops g idx).flexL.zip (colPass env ops g idx).flexG)
              0 g))
          idx
          { geomAt (colResweep ops idx (opAt ops idx)
              (colFlexLoop
                (colAvailH ops g idx rootH
                  - rowUsedWithGaps (opAt ops idx) (directChildCount ops idx)
                      (colPass env ops g idx).usedH)
                (colPass env ops g idx).totalFlex
                ((colPass env ops g idx).flexL.zip
                  (colPass env ops g idx).flexG)
                0 g)) idx
            with h := colAvailH ops g idx rootH
              + (if (opAt ops idx).border then 2 else 0) } := by
    simp only [distributeFlexInCol]
    rw [if_pos hcond]
  rw [hdist]
  set R := colAvailH ops g idx rootH
    - rowUsedWithGaps (opAt ops idx) (directChildCount ops idx)
        (colPass env ops g idx).usedH with hR2
  set ps := (colPass env ops g idx).flexL.zip (colPass env ops g idx).flexG
    with hps
  set g1 := colFlexLoop R (colPass env ops g idx).totalFlex ps 0 g with hg1
  set g2 := colResweep ops idx (opAt ops idx) g1 with hg2
  have hlen1 : g1.length = g.length := by
    rw [hg1, colFlexLoop_length]
  have hlen2 : g2.length = g.length := by
    rw [hg2, colResweep_length, hlen1]
  have hRHS : (geomAt (setGeom g2 idx
      { geomAt g2 idx with h := colAvailH ops g idx rootH
          + (if (opAt ops idx).border then 2 else 0) }) idx).h
      = colAvailH ops g idx rootH
          + (if (opAt ops idx).border then 2 else 0) := by
    rw [geomAt_setGeom_self _ _ _ (by rw [hlen2]; exact hidx)]
  have hchild_ne_idx : ∀ i ∈ childList ops idx, idx ≠ i := fun i hi =>
    Nat.ne_of_lt (childList_mem_gt ops idx hcs i hi)
  have hmapupdate : ((childList ops idx).map fun i =>
      (geomAt (setGeom g2 idx
        { geomAt g2 idx with h := colAvailH ops g idx rootH
            + (if (opAt ops idx).border then 2 else 0) }) i).h)
      = (childList ops idx).map fun i => (geomAt g1 i).h := by
    refine List.map_congr_left fun i hi => ?_
    rw [geomAt_setGeom_ne _ _ _ _ (hchild_ne_idx i hi), hg2, colResweep_h]
  have hpsfst : ps.map Prod.fst = (colPass env ops g idx).flexL := by
    rw [hps]
    exact List.map_fst_zip _ _ (le_of_eq (by rw [hflexG, List.length_map]))
  have hflexLnodup : (colPass env ops g idx).flexL.Nodup := by
    rw [hflexL]
    exact List.Nodup.filter _ (childList_nodup ops idx)
  have hpsnodup : (ps.map Prod.fst).Nodup := by
    rw [hpsfst]; exact hflexLnodup
  have hpsbound : ∀ p ∈ ps, p.1 < g.length := by
    intro p hp
    have h1 : p.1 ∈ (colPass env ops g idx).flexL := by
      rw [← hpsfst]; exact List.mem_map_of_mem _ hp
    have h2 : p.1 ∈ childList ops idx := by
      rw [hflexL] at h1; exact List.mem_of_mem_filter h1
    exact childList_mem_lt ops idx g.length hb p.1 h2
  have hpsne : ps ≠ [] := by
    intro h0
    have hl : ps.length = (colPass env ops g idx).flexL.length := by
      rw [hps, List.length_zip, hflexG, List.length_map, min_self]
    rw [h0] at hl
    exact hFne (List.eq_nil_of_length_eq_zero hl.symm)
  have hflexsum : ((colPass env ops g idx).flexL.map fun c =>
      (geomAt g1 c).h).sum
      = ((colPass env ops g idx).flexL.map fun c =>
          (geomAt g c).contentH).sum + R := by
    rw [← hpsfst, hg1,
      colFlexLoop_map_h R (colPass env ops g idx).totalFlex ps 0 g hpsnodup
        hpsbound,
      colNewHeights_sum R (colPass env ops g idx).totalFlex g ps 0 hpsne]
    simp
  have hnotflex : ((childList ops idx).filter fun i =>
      ! isColFlex env ops i).map (fun i => (geomAt g1 i).h)
      = ((childList ops idx).filter fun i =>
          ! isColFlex env ops i).map fun i => (geomAt g i).h := by
    refine List.map_congr_left fun i hi => ?_
    have hnot : ¬ isColFlex env ops i = true := by
      have := List.of_mem_filter hi
      simpa using this
    have hniL : i ∉ ps.map Prod.fst := by
      rw [hpsfst, hflexL]
      intro hmem
      exact hnot (List.of_mem_filter hmem)
    rw [hg1, colFlexLoop_untouched _ _ _ _ _ _ hniL]
  have hsplit := sum_map_split (childList ops idx) (isColFlex env ops)
    fun i => (geomAt g1 i).h
  have husedsplit := sum_map_split (childList ops idx) (isColFlex env ops)
    fun i => if isColFlex env ops i then (geomAt g i).contentH
      else (geomAt g i).h
  have hused1 : ((childList ops idx).filter (isColFlex env ops)).map
      (fun i => if isColFlex env ops i then (geomAt g i).contentH
        else (geomAt g i).h)
      = ((childList ops idx).filter (isColFlex env ops)).map
          fun i => (geomAt g i).contentH := by
    refine List.map_congr_left fun i hi => ?_
    rw [if_pos (List.of_mem_filter hi)]
  have hused2 : ((childList ops idx).filter fun i =>
      ! isColFlex env ops i).map
      (fun i => if isColFlex env ops i then (geomAt g i).contentH
        else (geomAt g i).h)
      = ((childList ops idx).filter fun i => ! isColFlex env ops i).map
          fun i => (geomAt g i).h := by
    refine List.map_congr_left fun i hi => ?_
    have hnot : ¬ isColFlex env ops i = true := by
      have := List.of_mem_filter hi
      simpa using this
    rw [if_neg hnot]
  rw [hmapupdate, hRHS]
  rw [hsplit, ← hflexL, hflexsum, hnotflex]
  have husedval : (colPass env ops g idx).usedH
      = ((colPass env ops g idx).flexL.map fun c =>
          (geomAt g c).contentH).sum
        + (((childList ops idx).filter fun i =>
            ! isColFlex env ops i).map fun i => (geomAt g i).h).sum := by
    rw [husedH, husedsplit, hused1, hused2, hflexL]
  have hRval : R = colAvailH ops g idx rootH
      - rowUsedWithGaps (opAt ops idx) (directChildCount ops idx)
          (colPass env ops g idx).usedH := hR2
  rw [rowUsedWithGaps] at hRval
  by_cases hgc : 1 < directChildCount ops idx ∧ 0 < (opAt ops idx).gap
  · rw [if_pos hgc] at hRval
    rw [hRval, husedval]
    ring
  · rw [if_neg hgc] at hRval
    have hzero : (opAt ops idx).gap * ((directChildCount ops idx : Int) - 1)
        = 0 := by
      rcases Decidable.not_and_iff_or_not.mp hgc with hn2 | hg2
      · have : directChildCount ops idx = 1 := by omega
        rw [this]
        simp
      · have : (opAt ops idx).gap = 0 := by omega
        rw [this]
        simp
    rw [hzero, hRval, husedval]
    ring

theorem opsNest_totalFlex_pos :
    0 < (colPass env0 opsNest gNest 0).totalFlex := by
  rw [colPass_totalFlex]
  have hfl : (colPass env0 opsNest gNest 0).flexL = [1] := by decide
  rw [hfl]
  norm_num [colFlexVal, opAt, opsNest, Op.core]

theorem opsNestB_totalFlex_pos :
    0 < (colPass env0 opsNest gNestA 2).totalFlex := by
  rw [colPass_totalFlex]
  have hfl : (colPass env0 opsNest gNestA 2).flexL = [3] := by decide
  rw [hfl]
  norm_num [colFlexVal, opAt, opsNest, Op.core]

/-- `A`'s own Phase-3 step on `opsNest`: the flex child `F` absorbs the 18
remaining rows, the cursor resweep repositions the children, and the sum
equality holds (children 18 + 1 + 1 = 20 = `A.h`). -/
theorem flexStepA : distributeFlexInCol env0 opsNest gNest 0 20 = gNestA := by
  have hcond : 0 < colAvailH opsNest gNest 0 20
      - rowUsedWithGaps (opAt opsNest 0) (directChildCount opsNest 0)
          (colPass env0 opsNest gNest 0).usedH ∧
      0 < (colPass env0 opsNest gNest 0).totalFlex :=
    ⟨by decide, opsNest_totalFlex_pos⟩
  simp only [distributeFlexInCol]
  rw [if_pos hcond]
  decide

/-- The childless flex column `F` has no flex children of its own, so its
Phase-3 step is a no-op. -/
theorem flexStepF : distributeFlexInCol env0 opsNest gNestA 1 20
    = gNestA := by
  have hnc : ¬ (0 < colAvailH opsNest gNestA 1 20
      - rowUsedWithGaps (opAt opsNest 1) (directChildCount opsNest 1)
          (colPass env0 opsNest gNestA 1).usedH ∧
      0 < (colPass env0 opsNest gNestA 1).totalFlex) := by decide
  simp only [distributeFlexInCol]
  rw [if_neg hnc]

/-- The later Phase-3 step on the non-flex column `B` (source lines
1200–1205): its available height is the parent's full height 20, so its
flex child `G` absorbs 19 rows and line 1318 overwrites `B.h` to 20,
breaking `A`'s sum equality. -/
theorem flexStepB : distributeFlexInCol env0 opsNest gNestA 2 20
    = gNestB := by
  have hcond : 0 < colAvailH opsNest gNestA 2 20
      - rowUsedWithGaps (opAt opsNest 2) (directChildCount opsNest 2)
          (colPass env0 opsNest gNestA 2).usedH ∧
      0 < (colPass env0 opsNest gNestA 2).totalFlex :=
    ⟨by decide, opsNestB_totalFlex_pos⟩
  simp only [distributeFlexInCol]
  rw [if_pos hcond]
  decide

/-- `G`'s own Phase-3 step: its only child is a text, so total flex is zero
and the step is a no-op. -/
theorem flexStepG : distributeFlexInCol env0 opsNest gNestB 3 20
    = gNestB := by
  have hnc : ¬ (0 < colAvailH opsNest gNestB 3 20
      - rowUsedWithGaps (opAt opsNest 3) (directChildCount opsNest 3)
          (colPass env0 opsNest gNestB 3).usedH ∧
      0 < (colPass env0 opsNest gNestB 3).totalFlex) := by decide
  simp only [distributeFlexInCol]
  rw [if_neg hnc]

/-- The full Phase-3 pass on `opsNest`: `A`'s step, the no-op on `F`, the
overwriting step on `B`, and the no-op on `G`. -/
theorem flexPassNest :
    distributeFlexGrow env0 opsNest byDepthNest 3 gNest 20 = gNestB := by
  have hd : depthRange 3 = [0, 1, 2, 3] := by decide
  have hg0 : byDepthNest.getD 0 [] = [0] := by decide
  have hg1 : byDepthNest.getD 1 [] = [1, 2, 5] := by decide
  have hg2 : byDepthNest.getD 2 [] = [3] := by decide
  have hg3 : byDepthNest.getD 3 [] = [4] := by decide
  have hc0 : (opAt opsNest 0).kind = .container
      ∧ (opAt opsNest 0).isRow = false := by decide
  have hc1 : (opAt opsNest 1).kind = .container
      ∧ (opAt opsNest 1).isRow = false := by decide
  have hc2 : (opAt opsNest 2).kind = .container
      ∧ (opAt opsNest 2).isRow = false := by decide
  have hc3 : (opAt opsNest 3).kind = .container
      ∧ (opAt opsNest 3).isRow = false := by decide
  have hc4 : ¬ ((opAt opsNest 4).kind = .container
      ∧ (opAt opsNest 4).isRow = false) := by decide
  have hc5 : ¬ ((opAt opsNest 5).kind = .container
      ∧ (opAt opsNest 5).isRow = false) := by decide
  simp only [distributeFlexGrow, hd, hg0, hg1, hg2, hg3, List.foldl_cons,
    List.foldl_nil]
  rw [if_pos hc0, flexStepA, if_pos hc1, flexStepF, if_pos hc2, flexStepB,
    if_neg hc5, if_pos hc3, flexStepG, if_neg hc4]

/-- C3 counterexample: the claim "after Phase 3 … for every column
container with a flex child" fails at the end of the modelled Phase 3 pass
(`distributeFlexGrow`) in two ways.  (1) `opsColBad`: with non-positive
remaining space the distribution never runs, so a height-1 column keeps a
height-5 flex child.  (2) `opsNest`: even with a flex child and positive
remaining space at the container's own step, the later step on its
non-flex column child reuses the container's full height as available
space and overwrites that child's height, so at the end of the pass the
children sum to 39 against the container's height 20. -/
theorem distributeFlexInCol_claim_false :
    ((colPass env0 opsColBad gColBad 0).flexL ≠ [] ∧
      ¬ (((childList opsColBad 0).map fun i =>
            (geomAt (distributeFlexGrow env0 opsColBad [[0], [1]] 1 gColBad 1)
              i).h).sum
          + (opAt opsColBad 0).gap
              * ((directChildCount opsColBad 0 : Int) - 1)
          = (geomAt (distributeFlexGrow env0 opsColBad [[0], [1]] 1 gColBad 1)
              0).h
            - (if (opAt opsColBad 0).border then 2 else 0)))
    ∧ ((colPass env0 opsNest gNest 0).flexL ≠ [] ∧
      0 < colAvailH opsNest gNest 0 20
        - rowUsedWithGaps (opAt opsNest 0) (directChildCount opsNest 0)
            (colPass env0 opsNest gNest 0).usedH ∧
      0 < (colPass env0 opsNest gNest 0).totalFlex ∧
      ¬ (((childList opsNest 0).map fun i =>
            (geomAt (distributeFlexGrow env0 opsNest byDepthNest 3 gNest 20)
              i).h).sum
          + (opAt opsNest 0).gap * ((directChildCount opsNest 0 : Int) - 1)
          = (geomAt (distributeFlexGrow env0 opsNest byDepthNest 3 gNest 20)
              0).h
            - (if (opAt opsNest 0).border then 2 else 0))) := by
  refine ⟨⟨by decide, by decide⟩,
    ⟨by decide, by decide, opsNest_totalFlex_pos, ?_⟩⟩
  rw [flexPassNest]
  decide

theorem opsColOk_totalFlex_pos :
    0 < (colPass env0 opsColOk gColOk 0).totalFlex := by
  rw [colPass_totalFlex]
  have hfl : (colPass env0 opsColOk gColOk 0).flexL = [1] := by decide
  rw [hfl]
  norm_num [colFlexVal, opAt, opsColOk, Op.core]

/-- Witness for `distributeFlexInCol_sum`: the height-10 column distributes
its remaining 8 rows to the flex child, so the child sums match the
container height. -/
theorem distributeFlexInCol_sum_witness :
    ((childList opsColOk 0).map fun i =>
        (geomAt (distributeFlexInCol env0 opsColOk gColOk 0 10) i).h).sum
      + (opAt opsColOk 0).gap * ((directChildCount opsColOk 0 : Int) - 1)
      = (geomAt (distributeFlexInCol env0 opsColOk gColOk 0 10) 0).h
        - (if (opAt opsColOk 0).border then 2 else 0) :=
  distributeFlexInCol_sum env0 opsColOk gColOk 0 10 (by decide) (by decide)
    (by decide) (by decide) (by decide) (by decide) (by decide)
    opsColOk_totalFlex_pos

/-- C9: for every `ForEach` or `SelectionList` node whose `Items` value is
not a pointer to a slice, `Build` fails fatally at compile time (the Go
panic is modelled as `Except.error`) and no template is produced. -/
theorem build_nonPtr_items_fails (items : ItemsSrc) (probe : Nat)
    (body : Node) (bodySel : Option Node) (selected : Option Nat)
    (marker : String) (slAddr : Nat)
    (h : ∀ a s, items ≠ ItemsSrc.ptrSlice a s) :
    Build (.forEach items probe body)
        = .error "ForEach Items must be pointer to slice" ∧
      Build (.selList items probe bodySel selected marker slAddr)
        = .error "SelectionList Items must be pointer to slice" := by
  cases items with
  | ptrSlice a s => exact absurd rfl (h a s)
  | ptrNonSlice =>
      constructor <;> simp [Build, compileN, Bind.bind, Except.bind]
  | nonPtr =>
      constructor <;> simp [Build, compileN, Bind.bind, Except.bind]

/-- Witness for `build_nonPtr_items_fails` at a concrete non-pointer
source. -/
theorem build_nonPtr_items_fails_witness :
    Build (.forEach .nonPtr 0 (.text (.lit "x")))
      = .error "ForEach Items must be pointer to slice" :=
  (build_nonPtr_items_fails .nonPtr 0 (.text (.lit "x")) none none "" 0
    (fun _ _ hx => ItemsSrc.noConfusion hx)).1

theorem addOp_idx (t : Template) (core : OpCore)
    (thenT elseT iterT : Option Template) (depth : Int) :
    (addOp t core thenT elseT iterT depth).2 = t.ops.length := by
  unfold addOp
  split <;> rfl

theorem addOp_ops (t : Template) (core : OpCore)
    (thenT elseT iterT : Option Template) (depth : Int) :
    (addOp t core thenT elseT iterT depth).1.ops
      = t.ops ++ [Op.mk { core with depth := depth } thenT elseT iterT] := by
  unfold addOp
  split <;> rfl

theorem setChildRange_ops (t : Template) (idx cs ce : Nat) :
    (setChildRange t idx cs ce).ops
      = t.ops.set idx
          (Op.mk
            { (t.ops.getD idx default).core with childStart := cs, childEnd := ce }
            (t.ops.getD idx default).thenT (t.ops.getD idx default).elseT
            (t.ops.getD idx default).iterT) := rfl

theorem opAt_append_lt (ops : List Op) (x : Op) (j : Nat)
    (h : j < ops.length) : opAt (ops ++ [x]) j = opAt ops j := by
  unfold opAt
  rw [List.getD_append _ _ _ _ h]

theorem opAt_append_self (ops : List Op) (x : Op) :
    opAt (ops ++ [x]) ops.length = x.core := by
  unfold opAt
  rw [List.getD_eq_getElem?_getD, List.getElem?_concat_length]
  rfl

theorem opAt_set_self (ops : List Op) (i : Nat) (x : Op)
    (h : i < ops.length) : opAt (ops.set i x) i = x.core := by
  unfold opAt
  simp [List.getD_eq_getElem?_getD, List.getElem?_set_self', h]

theorem opAt_set_ne (ops : List Op) (i j : Nat) (x : Op) (h : i ≠ j) :
    opAt (ops.set i x) j = opAt ops j := by
  unfold opAt
  simp [List.getD_eq_getElem?_getD, List.getElem?_set_ne h]

theorem agreeBelow_append (ops : List Op) (l : List Op) :
    agreeBelow ops (ops ++ l) ops.length := by
  intro j hj
  unfold opAt
  rw [List.getD_append _ _ _ _ hj]

theorem agreeBelow_trans (ops1 ops2 ops3 : List Op) (n m : Nat)
    (h1 : agreeBelow ops1 ops2 n) (h2 : agreeBelow ops2 ops3 m)
    (h : n ≤ m) : agreeBelow ops1 ops3 n := by
  intro j hj
  rw [h2 j (lt_of_lt_of_le hj h), h1 j hj]

theorem SegWF_congr (ops ops' : List Op) (s e : Nat) (parent depth : Int)
    (hw : SegWF ops s e parent depth) (ha : agreeOn ops ops' s e)
    (hl : e ≤ ops'.length) : SegWF ops' s e parent depth := by
  have hP : ∀ j, s ≤ j → j < e → parentOf ops' j = parentOf ops j :=
    fun j hs hj => by unfold parentOf; rw [ha j hs hj]
  have hD : ∀ j, s ≤ j → j < e → depthOf ops' j = depthOf ops j :=
    fun j hs hj => by unfold depthOf; rw [ha j hs hj]
  have hK : ∀ j, s ≤ j → j < e → kindOf ops' j = kindOf ops j :=
    fun j hs hj => by unfold kindOf; rw [ha j hs hj]
  have hCs : ∀ j, s ≤ j → j < e → csOf ops' j = csOf ops j :=
    fun j hs hj => by unfold csOf; rw [ha j hs hj]
  have hCe : ∀ j, s ≤ j → j < e → ceOf ops' j = ceOf ops j :=
    fun j hs hj => by unfold ceOf; rw [ha j hs hj]
  refine ⟨hw.s_le, hl, hw.parent_lt, ?_, ?_, ?_, ?_, ?_, ?_, ?_, ?_, ?_⟩
  · intro j h1 h2
    rw [hP j h1 h2]
    exact hw.par_cases j h1 h2
  · intro j h1 h2 hpar
    rw [hD j h1 h2]
    rw [hP j h1 h2] at hpar
    exact hw.root_depth j h1 h2 hpar
  · intro j h1 h2 p hp hpar
    rw [hP j h1 h2] at hpar
    have hplt : p < j := by
      rcases hw.par_cases j h1 h2 with hc | hc
      · exfalso
        rw [hpar] at hc
        have := hw.parent_lt
        omega
      · have := hc.2
        rw [hpar] at this
        exact_mod_cast this
    have hpe : p < e := lt_trans hplt h2
    have hh := hw.par_spec j h1 h2 p hp hpar
    rw [hK p hp hpe, hCs p hp hpe, hCe p hp hpe, hD j h1 h2, hD p hp hpe]
    exact hh
  · intro j h1 h2 hk
    rw [hCs j h1 h2]
    exact hw.cont_cs j h1 h2 (by rw [← hK j h1 h2]; exact hk)
  · intro j h1 h2 hk
    rw [hCe j h1 h2]
    exact hw.cont_ce j h1 h2 (by rw [← hK j h1 h2]; exact hk)
  · intro j h1 h2 hk m hm1 hm2
    rw [hCe j h1 h2] at hm2
    have hke := hw.cont_ce j h1 h2 (by rw [← hK j h1 h2]; exact hk)
    rw [hP m (by omega) (lt_of_lt_of_le hm2 hke.2)]
    exact hw.cont_block_par j h1 h2 (by rw [← hK j h1 h2]; exact hk) m hm1 hm2
  · intro j h1 h2 hk m hm1 hm2 hpar
    rw [hCe j h1 h2]
    rw [hP m (by omega) hm2] at hpar
    exact hw.cont_children_in j h1 h2 (by rw [← hK j h1 h2]; exact hk) m hm1
      hm2 hpar
  · intro j h1 h2 hk
    rw [hCs j h1 h2, hCe j h1 h2]
    exact hw.leaf_range j h1 h2 (by rw [← hK j h1 h2]; exact hk)
  · intro j h1 h2 hk k hk1 hk2 hkk
    rw [hCe j h1 h2] at hk2
    have hke := hw.cont_ce j h1 h2 (by rw [← hK j h1 h2]; exact hk)
    have hklt : k < e := lt_of_lt_of_le hk2 hke.2
    have hks : s ≤ k := by omega
    rw [hCe k hks hklt, hCe j h1 h2]
    exact hw.nest j h1 h2 (by rw [← hK j h1 h2]; exact hk) k hk1 hk2
      (by rw [← hK k hks hklt]; exact hkk)

theorem BlockWF_congr (ops ops' : List Op) (s e : Nat) (parent depth : Int)
    (hw : BlockWF ops s e parent depth) (ha : agreeBelow ops ops' e)
    (hl : e ≤ ops'.length) : BlockWF ops' s e parent depth := by
  have hP : ∀ j, j < e → parentOf ops' j = parentOf ops j := fun j hj => by
    unfold parentOf; rw [ha j hj]
  have hD : ∀ j, j < e → depthOf ops' j = depthOf ops j := fun j hj => by
    unfold depthOf; rw [ha j hj]
  have hK : ∀ j, j < e → kindOf ops' j = kindOf ops j := fun j hj => by
    unfold kindOf; rw [ha j hj]
  have hCs : ∀ j, j < e → csOf ops' j = csOf ops j := fun j hj => by
    unfold csOf; rw [ha j hj]
  have hCe : ∀ j, j < e → ceOf ops' j = ceOf ops j := fun j hj => by
    unfold ceOf; rw [ha j hj]
  refine ⟨hw.lt, hl, ?_, ?_, ?_, ?_, ?_, ?_, ?_, ?_, ?_, ?_, ?_⟩
  · rw [hP s hw.lt]; exact hw.root_parent
  · rw [hD s hw.lt]; exact hw.root_depth
  · intro j h1 h2
    rw [hP j h2]
    exact hw.par_lo j h1 h2
  · intro j h1 h2
    rw [hP j h2]
    exact hw.par_hi j h1 h2
  · intro j h1 h2 p hpar
    rw [hP j h2] at hpar
    have hplt : p < j := by
      have := hw.par_hi j h1 h2
      rw [hpar] at this
      exact_mod_cast this
    have hh := hw.par_spec j h1 h2 p hpar
    rw [hK p (lt_trans hplt h2), hCs p (lt_trans hplt h2),
      hCe p (lt_trans hplt h2), hD j h2, hD p (lt_trans hplt h2)]
    exact hh
  · intro j h1 h2 hk
    rw [hCs j h2]
    exact hw.cont_cs j h1 h2 (by rw [← hK j h2]; exact hk)
  · intro j h1 h2 hk
    rw [hCe j h2]
    exact hw.cont_ce j h1 h2 (by rw [← hK j h2]; exact hk)
  · intro j h1 h2 hk m hm1 hm2
    rw [hCe j h2] at hm2
    have hke := hw.cont_ce j h1 h2 (by rw [← hK j h2]; exact hk)
    rw [hP m (lt_of_lt_of_le hm2 hke.2)]
    exact hw.cont_block_par j h1 h2 (by rw [← hK j h2]; exact hk) m hm1 hm2
  · intro j h1 h2 hk m hm1 hm2 hpar
    rw [hCe j h2]
    rw [hP m hm2] at hpar
    exact hw.cont_children_in j h1 h2 (by rw [← hK j h2]; exact hk) m hm1 hm2
      hpar
  · intro j h1 h2 hk
    rw [hCs j h2, hCe j h2]
    exact hw.leaf_range j h1 h2 (by rw [← hK j h2]; exact hk)
  · intro j h1 h2 hk k hk1 hk2 hkk
    rw [hCe j h2] at hk2
    have hke := hw.cont_ce j h1 h2 (by rw [← hK j h2]; exact hk)
    have hklt : k < e := lt_of_lt_of_le hk2 hke.2
    rw [hCe k hklt, hCe j h2]
    exact hw.nest j h1 h2 (by rw [← hK j h2]; exact hk) k hk1 hk2
      (by rw [← hK k hklt]; exact hkk)

theorem BlockWF.toSeg (ops : List Op) (s e : Nat) (parent depth : Int)
    (hw : BlockWF ops s e parent depth) (hps : parent < (s : Int)) :
    SegWF ops s e parent depth := by
  refine ⟨le_of_lt hw.lt, hw.le, hps, ?_, ?_, ?_, hw.cont_cs, hw.cont_ce,
    hw.cont_block_par, hw.cont_children_in, hw.leaf_range, hw.nest⟩
  · intro j h1 h2
    rcases Nat.eq_or_lt_of_le h1 with h | h
    · left
      rw [← h]
      exact hw.root_parent
    · right
      exact ⟨hw.par_lo j h h2, hw.par_hi j h h2⟩
  · intro j h1 h2 hpar
    rcases Nat.eq_or_lt_of_le h1 with h | h
    · rw [← h]
      exact hw.root_depth
    · exfalso
      have := hw.par_lo j h h2
      rw [hpar] at this
      omega
  · intro j h1 h2 p hp hpar
    rcases Nat.eq_or_lt_of_le h1 with h | h
    · exfalso
      rw [← h] at hpar
      rw [hw.root_parent] at hpar
      rw [hpar] at hps
      omega
    · exact hw.par_spec j h h2 p hpar

theorem SegWF.emptySeg (ops : List Op) (s : Nat) (parent depth : Int)
    (hl : s ≤ ops.length) (hps : parent < (s : Int)) :
    SegWF ops s s parent depth := by
  refine ⟨le_refl s, hl, hps, ?_, ?_, ?_, ?_, ?_, ?_, ?_, ?_, ?_⟩ <;>
    intro j h1 h2 <;> omega

theorem SegWF.consBlock (ops : List Op) (s m e : Nat) (parent depth : Int)
    (hblk : BlockWF ops s m parent depth)
    (hseg : SegWF ops m e parent depth)
    (hps : parent < (s : Int)) :
    SegWF ops s e parent depth := by
  have hsm : s < m := hblk.lt
  have hme : m ≤ e := hseg.s_le
  refine ⟨by omega, hseg.le, hps, ?_, ?_, ?_, ?_, ?_, ?_, ?_, ?_, ?_⟩
  · intro j h1 h2
    rcases Nat.lt_or_ge j m with hj | hj
    · rcases Nat.eq_or_lt_of_le h1 with hj2 | hj2
      · left
        rw [← hj2]
        exact hblk.root_parent
      · right
        exact ⟨hblk.par_lo j hj2 hj, hblk.par_hi j hj2 hj⟩
    · rcases hseg.par_cases j hj h2 with hc | hc
      · left; exact hc
      · right
        refine ⟨?_, hc.2⟩
        have := hc.1
        omega
  · intro j h1 h2 hpar
    rcases Nat.lt_or_ge j m with hj | hj
    · rcases Nat.eq_or_lt_of_le h1 with hj2 | hj2
      · rw [← hj2]
        exact hblk.root_depth
      · exfalso
        have := hblk.par_lo j hj2 hj
        rw [hpar] at this
        omega
    · exact hseg.root_depth j hj h2 hpar
  · intro j h1 h2 p hp hpar
    rcases Nat.lt_or_ge j m with hj | hj
    · rcases Nat.eq_or_lt_of_le h1 with hj2 | hj2
      · exfalso
        rw [← hj2, hblk.root_parent] at hpar
        rw [hpar] at hps
        omega
      · exact hblk.par_spec j hj2 hj p hpar
    · rcases hseg.par_cases j hj h2 with hc | hc
      · exfalso
        rw [hpar] at hc
        omega
      · have hmp : m ≤ p := by
          have := hc.1
          rw [hpar] at this
          exact_mod_cast this
        exact hseg.par_spec j hj h2 p hmp hpar
  · intro j h1 h2 hk
    rcases Nat.lt_or_ge j m with hj | hj
    · exact hblk.cont_cs j h1 hj hk
    · exact hseg.cont_cs j hj h2 hk
  · intro j h1 h2 hk
    rcases Nat.lt_or_ge j m with hj | hj
    · have := hblk.cont_ce j h1 hj hk
      omega
    · exact hseg.cont_ce j hj h2 hk
  · intro j h1 h2 hk mm hm1 hm2
    rcases Nat.lt_or_ge j m with hj | hj
    · exact hblk.cont_block_par j h1 hj hk mm hm1 hm2
    · exact hseg.cont_block_par j hj h2 hk mm hm1 hm2
  · intro j h1 h2 hk mm hm1 hm2 hpar
    rcases Nat.lt_or_ge j m with hj | hj
    · rcases Nat.lt_or_ge mm m with hmm | hmm
      · exact hblk.cont_children_in j h1 hj hk mm hm1 hmm hpar
      · exfalso
        rcases hseg.par_cases mm hmm hm2 with hc | hc
        · rw [hpar] at hc
          omega
        · have := hc.1
          rw [hpar] at this
          omega
    · exact hseg.cont_children_in j hj h2 hk mm hm1 hm2 hpar
  · intro j h1 h2 hk
    rcases Nat.lt_or_ge j m with hj | hj
    · exact hblk.leaf_range j h1 hj hk
    · exact hseg.leaf_range j hj h2 hk
  · intro j h1 h2 hk k hk1 hk2 hkk
    rcases Nat.lt_or_ge j m with hj | hj
    · exact hblk.nest j h1 hj hk k hk1 hk2 hkk
    · exact hseg.nest j hj h2 hk k hk1 hk2 hkk

theorem leafBlockWF (ops : List Op) (n : Nat) (parent depth : Int)
    (hlen : n + 1 ≤ ops.length)
    (hpar : parentOf ops n = parent) (hdep : depthOf ops n = depth)
    (hkind : kindOf ops n ≠ .container) (hcs : csOf ops n = 0)
    (hce : ceOf ops n = 0) : BlockWF ops n (n + 1) parent depth := by
  refine ⟨Nat.lt_succ_self n, hlen, hpar, hdep, ?_, ?_, ?_, ?_, ?_, ?_, ?_,
    ?_, ?_⟩
  · intro j h1 h2; omega
  · intro j h1 h2; omega
  · intro j h1 h2; omega
  · intro j h1 h2 hk
    exfalso
    have : j = n := by omega
    rw [this] at hk
    exact hkind hk
  · intro j h1 h2 hk
    exfalso
    have : j = n := by omega
    rw [this] at hk
    exact hkind hk
  · intro j h1 h2 hk
    exfalso
    have : j = n := by omega
    rw [this] at hk
    exact hkind hk
  · intro j h1 h2 hk
    exfalso
    have : j = n := by omega
    rw [this] at hk
    exact hkind hk
  · intro j h1 h2 _
    have : j = n := by omega
    rw [this]
    exact ⟨hcs, hce⟩
  · intro j h1 h2 hk
    exfalso
    have : j = n := by omega
    rw [this] at hk
    exact hkind hk

theorem containerBlockWF (ops : List Op) (idx e : Nat) (parent depth : Int)
    (hlen : e ≤ ops.length)
    (hpar : parentOf ops idx = parent) (hdep : depthOf ops idx = depth)
    (hkind : kindOf ops idx = .container)
    (hcs : csOf ops idx = idx + 1) (hce : ceOf ops idx = e)
    (hseg : SegWF ops (idx + 1) e (idx : Int) (depth + 1)) :
    BlockWF ops idx e parent depth := by
  have hse : idx + 1 ≤ e := hseg.s_le
  refine ⟨by omega, hlen, hpar, hdep, ?_, ?_, ?_, ?_, ?_, ?_, ?_, ?_, ?_⟩
  · intro j h1 h2
    rcases hseg.par_cases j (by omega) h2 with hc | hc
    · rw [hc]
    · omega
  · intro j h1 h2
    rcases hseg.par_cases j (by omega) h2 with hc | hc
    · rw [hc]; exact_mod_cast h1
    · exact hc.2
  · intro j h1 h2 p hpj
    rcases hseg.par_cases j (by omega) h2 with hc | hc
    · have hpidx : p = idx := by
        rw [hc] at hpj
        exact_mod_cast hpj.symm
      rw [hpidx, hkind, hcs, hce, hseg.root_depth j (by omega) h2 (by
        rw [hpj, hpidx]), hdep]
      refine ⟨rfl, by omega, h2, rfl⟩
    · have hps : idx + 1 ≤ p := by
        have := hc.1
        rw [hpj] at this
        exact_mod_cast this
      exact hseg.par_spec j (by omega) h2 p hps hpj
  · intro j h1 h2 hk
    rcases Nat.eq_or_lt_of_le h1 with h | h
    · rw [← h]; exact hcs
    · exact hseg.cont_cs j h h2 hk
  · intro j h1 h2 hk
    rcases Nat.eq_or_lt_of_le h1 with h | h
    · rw [← h]; rw [hce]; omega
    · have := hseg.cont_ce j h h2 hk
      omega
  · intro j h1 h2 hk m hm1 hm2
    rcases Nat.eq_or_lt_of_le h1 with h | h
    · rw [← h] at hm1 hm2 ⊢
      rw [hce] at hm2
      rcases hseg.par_cases m (by omega) hm2 with hc | hc
      · rw [hc]
      · omega
    · exact hseg.cont_block_par j h h2 hk m hm1 hm2
  · intro j h1 h2 hk m hm1 hm2 hpm
    rcases Nat.eq_or_lt_of_le h1 with h | h
    · rw [← h, hce]; exact hm2
    · exact hseg.cont_children_in j h h2 hk m hm1 hm2 hpm
  · intro j h1 h2 hk
    rcases Nat.eq_or_lt_of_le h1 with h | h
    · exfalso
      rw [← h] at hk
      rw [hkind] at hk
      exact hk rfl
    · exact hseg.leaf_range j h h2 hk
  · intro j h1 h2 hk k hk1 hk2 hkk
    rcases Nat.eq_or_lt_of_le h1 with h | h
    · rw [← h, hce]
      rw [← h, hce] at hk2
      have := hseg.cont_ce k (by omega) (by omega) hkk
      omega
    · exact hseg.nest j h h2 hk k hk1 hk2 hkk

theorem ok_pair_eq {α β : Type _} {x : α × β} {a : α} {b : β}
    (h : (Except.ok x : Except String (α × β)) = .ok (a, b)) :
    x.1 = a ∧ x.2 = b := by
  injection h with h
  exact ⟨congrArg Prod.fst h, congrArg Prod.snd h⟩

theorem node_sizeOf_pos (node : Node) : 0 < sizeOf node := by
  cases node <;> simp

theorem addOp_leaf_post (t : Template) (core : OpCore)
    (thenT elseT iterT : Option Template) (parent depth : Int)
    (hpar : core.parent = parent) (hk : core.kind ≠ .container)
    (hcs : core.childStart = 0) (hce : core.childEnd = 0) :
    (addOp t core thenT elseT iterT depth).2 = t.ops.length ∧
      t.ops.length < (addOp t core thenT elseT iterT depth).1.ops.length ∧
      agreeBelow t.ops (addOp t core thenT elseT iterT depth).1.ops
        t.ops.length ∧
      BlockWF (addOp t core thenT elseT iterT depth).1.ops t.ops.length
        (addOp t core thenT elseT iterT depth).1.ops.length parent depth := by
  rw [addOp_idx, addOp_ops]
  refine ⟨rfl, by simp, agreeBelow_append t.ops _, ?_⟩
  rw [List.length_append, List.length_singleton]
  have hAt : opAt (t.ops ++ [Op.mk { core with depth := depth }
      thenT elseT iterT]) t.ops.length = { core with depth := depth } :=
    opAt_append_self t.ops _
  refine leafBlockWF _ _ parent depth (by simp) ?_ ?_ ?_ ?_ ?_
  · unfold parentOf
    rw [hAt]
    exact hpar
  · unfold depthOf
    rw [hAt]
  · unfold kindOf
    rw [hAt]
    exact hk
  · unfold csOf
    rw [hAt]
    exact hcs
  · unfold ceOf
    rw [hAt]
    exact hce

theorem compile_main : ∀ fuel : Nat,
    (∀ node : Node, ∀ parent depth : Int, ∀ eb : Option (Nat × Nat),
      ∀ t t' : Template, ∀ idx : Nat,
      sizeOf node ≤ fuel →
      compileN node parent depth eb t = .ok (t', idx) →
      idx = t.ops.length ∧ t.ops.length < t'.ops.length ∧
        agreeBelow t.ops t'.ops t.ops.length ∧
        BlockWF t'.ops t.ops.length t'.ops.length parent depth) ∧
    (∀ children : List Node, ∀ parent depth : Int, ∀ eb : Option (Nat × Nat),
      ∀ t t' : Template,
      sizeOf children ≤ fuel →
      parent < (t.ops.length : Int) →
      compileList children parent depth eb t = .ok t' →
      t.ops.length ≤ t'.ops.length ∧
        agreeBelow t.ops t'.ops t.ops.length ∧
        SegWF t'.ops t.ops.length t'.ops.length parent depth) := by
  intro fuel
  induction fuel with
  | zero =>
      constructor
      · intro node _ _ _ _ _ _ hsz _
        exact absurd hsz (by have := node_sizeOf_pos node; omega)
      · intro children _ _ _ _ _ hsz _ _
        exact absurd hsz (by cases children <;> simp)
  | succ fuel ih =>
      obtain ⟨ihN, ihL⟩ := ih
      constructor
      · intro node parent depth eb t t' idx hsz hok
        cases node with
        | text c =>
            rcases c with s | a
            · simp only [compileN] at hok
              obtain ⟨h1, h2⟩ := ok_pair_eq hok
              rw [← h1, ← h2]
              exact addOp_leaf_post t _ none none none parent depth rfl
                (fun hcon => OpKind.noConfusion hcon) rfl rfl
            · rcases eb with _ | ⟨b, sz⟩
              · simp only [compileN] at hok
                obtain ⟨h1, h2⟩ := ok_pair_eq hok
                rw [← h1, ← h2]
                exact addOp_leaf_post t _ none none none parent depth rfl
                  (fun hcon => OpKind.noConfusion hcon) rfl rfl
              · simp only [compileN] at hok
                by_cases hwr : isWithinRange a b sz
                · rw [if_pos hwr] at hok
                  obtain ⟨h1, h2⟩ := ok_pair_eq hok
                  rw [← h1, ← h2]
                  exact addOp_leaf_post t _ none none none parent depth rfl
                    (fun hcon => OpKind.noConfusion hcon) rfl rfl
                · rw [if_neg hwr] at hok
                  obtain ⟨h1, h2⟩ := ok_pair_eq hok
                  rw [← h1, ← h2]
                  exact addOp_leaf_post t _ none none none parent depth rfl
                    (fun hcon => OpKind.noConfusion hcon) rfl rfl
        | progress v bw =>
            rcases v with n | a
            · simp only [compileN] at hok
              obtain ⟨h1, h2⟩ := ok_pair_eq hok
              rw [← h1, ← h2]
              exact addOp_leaf_post t _ none none none parent depth rfl
                (fun hcon => OpKind.noConfusion hcon) rfl rfl
            · rcases eb with _ | ⟨b, sz⟩
              · simp only [compileN] at hok
                obtain ⟨h1, h2⟩ := ok_pair_eq hok
                rw [← h1, ← h2]
                exact addOp_leaf_post t _ none none none parent depth rfl
                  (fun hcon => OpKind.noConfusion hcon) rfl rfl
              · simp only [compileN] at hok
                by_cases hwr : isWithinRange a b sz
                · rw [if_pos hwr] at hok
                  obtain ⟨h1, h2⟩ := ok_pair_eq hok
                  rw [← h1, ← h2]
                  exact addOp_leaf_post t _ none none none parent depth rfl
                    (fun hcon => OpKind.noConfusion hcon) rfl rfl
                · rw [if_neg hwr] at hok
                  obtain ⟨h1, h2⟩ := ok_pair_eq hok
                  rw [← h1, ← h2]
                  exact addOp_leaf_post t _ none none none parent depth rfl
                    (fun hcon => OpKind.noConfusion hcon) rfl rfl
        | ifNode cond thenN elseN =>
            rcases elseN with _ | eN
            · simp only [compileN] at hok
              cases hThen : compileN thenN (-1) 0 eb emptySub with
              | error e =>
                  rw [hThen] at hok
                  simp only [Bind.bind, Except.bind] at hok
                  exact Except.noConfusion hok
              | ok pThen =>
                  obtain ⟨tThen, iThen⟩ := pThen
                  rw [hThen] at hok
                  simp only [Bind.bind, Except.bind, pure, Except.pure]
                    at hok
                  obtain ⟨h1, h2⟩ := ok_pair_eq hok
                  rw [← h1, ← h2]
                  exact addOp_leaf_post t _ _ _ _ parent depth rfl
                    (fun hcon => OpKind.noConfusion hcon) rfl rfl
            · simp only [compileN] at hok
              cases hThen : compileN thenN (-1) 0 eb emptySub with
              | error e =>
                  rw [hThen] at hok
                  simp only [Bind.bind, Except.bind] at hok
                  exact Except.noConfusion hok
              | ok pThen =>
                  obtain ⟨tThen, iThen⟩ := pThen
                  rw [hThen] at hok
                  simp only [Bind.bind, Except.bind] at hok
                  cases hElse : compileN eN (-1) 0 eb emptySub with
                  | error e =>
                      rw [hElse] at hok
                      simp only [Bind.bind, Except.bind] at hok
                      exact Except.noConfusion hok
                  | ok pElse =>
                      obtain ⟨tElse, iElse⟩ := pElse
                      rw [hElse] at hok
                      simp only [Bind.bind, Except.bind, pure, Except.pure]
                        at hok
                      obtain ⟨h1, h2⟩ := ok_pair_eq hok
                      rw [← h1, ← h2]
                      exact addOp_leaf_post t _ _ _ _ parent depth rfl
                        (fun hcon => OpKind.noConfusion hcon) rfl rfl
        | forEach items probe body =>
            rcases items with ⟨addr, esz⟩ | _ | _
            · simp only [compileN] at hok
              cases hIter : compileN body (-1) 0 (some (probe, esz))
                  emptySub with
              | error e =>
                  rw [hIter] at hok
                  simp only [Bind.bind, Except.bind] at hok
                  exact Except.noConfusion hok
              | ok pIter =>
                  obtain ⟨tIter, iIter⟩ := pIter
                  rw [hIter] at hok
                  simp only [Bind.bind, Except.bind] at hok
                  obtain ⟨h1, h2⟩ := ok_pair_eq hok
                  rw [← h1, ← h2]
                  exact addOp_leaf_post t _ _ _ _ parent depth rfl
                    (fun hcon => OpKind.noConfusion hcon) rfl rfl
            · simp only [compileN] at hok
              exact Except.noConfusion hok
            · simp only [compileN] at hok
              exact Except.noConfusion hok
        | selList items probe body selected marker slAddr =>
            rcases items with ⟨addr, esz⟩ | _ | _
            · rcases body with _ | bN
              · simp only [compileN, Bind.bind, Except.bind, pure,
                  Except.pure] at hok
                obtain ⟨h1, h2⟩ := ok_pair_eq hok
                rw [← h1, ← h2]
                exact addOp_leaf_post t _ _ _ _ parent depth rfl
                  (fun hcon => OpKind.noConfusion hcon) rfl rfl
              · simp only [compileN] at hok
                cases hIter : compileN bN (-1) 0 (some (probe, esz))
                    emptySub with
                | error e =>
                    rw [hIter] at hok
                    simp only [Bind.bind, Except.bind] at hok
                    exact Except.noConfusion hok
                | ok pIter =>
                    obtain ⟨tIter, iIter⟩ := pIter
                    rw [hIter] at hok
                    simp only [Bind.bind, Except.bind, pure, Except.pure]
                      at hok
                    obtain ⟨h1, h2⟩ := ok_pair_eq hok
                    rw [← h1, ← h2]
                    exact addOp_leaf_post t _ _ _ _ parent depth rfl
                      (fun hcon => OpKind.noConfusion hcon) rfl rfl
            · simp only [compileN] at hok
              exact Except.noConfusion hok
            · simp only [compileN] at hok
              exact Except.noConfusion hok
        | row gap f border children =>
            simp only [compileN] at hok
            rcases hAdd : addOp t (containerCore gap true f border parent)
              none none none depth with ⟨t1, idx1⟩
            rw [hAdd] at hok
            simp only [Bind.bind, Except.bind] at hok
            cases hCL : compileList children (idx1 : Int) (depth + 1) eb t1
              with
            | error e =>
                rw [hCL] at hok
                simp only [Bind.bind, Except.bind] at hok
                exact Except.noConfusion hok
            | ok t2 =>
                rw [hCL] at hok
                simp only [Bind.bind, Except.bind] at hok
                obtain ⟨h1, h2⟩ := ok_pair_eq hok
                have hT : setChildRange t2 idx1 t1.ops.length t2.ops.length
                    = t' := h1
                have hI : idx1 = idx := h2
                subst hI
                have hidx1 : idx1 = t.ops.length := by
                  rw [← addOp_idx t (containerCore gap true f border parent)
                    none none none depth, hAdd]
                have hops1 : t1.ops = t.ops
                    ++ [Op.mk { containerCore gap true f border parent with
                          depth := depth } none none none] := by
                  rw [← addOp_ops t (containerCore gap true f border parent)
                    none none none depth, hAdd]
                have hlen1 : t1.ops.length = t.ops.length + 1 := by
                  rw [hops1]
                  simp
                have hszc : sizeOf children ≤ fuel := by
                  have h := hsz
                  simp at h
                  omega
                have hplt1 : (idx1 : Int) < (t1.ops.length : Int) := by
                  rw [hlen1, hidx1]
                  exact_mod_cast Nat.lt_succ_self _
                obtain ⟨hle2, hag2, hseg2⟩ :=
                  ihL children (idx1 : Int) (depth + 1) eb t1 t2 hszc hplt1
                    hCL
                have htops := setChildRange_ops t2 idx1 t1.ops.length
                  t2.ops.length
                rw [hT] at htops
                have hlen' : t'.ops.length = t2.ops.length := by
                  rw [htops]
                  exact List.length_set t2.ops idx1 _
                have hidxlt2 : idx1 < t2.ops.length := by omega
                have hAt2 : opAt t2.ops idx1
                    = { containerCore gap true f border parent with
                        depth := depth } := by
                  rw [hag2 idx1 (by omega), hops1, hidx1]
                  exact opAt_append_self t.ops _
                have hAt' : opAt t'.ops idx1
                    = { opAt t2.ops idx1 with
                        childStart := t1.ops.length,
                        childEnd := t2.ops.length } := by
                  rw [htops]
                  exact opAt_set_self t2.ops idx1 _ hidxlt2
                rw [hAt2] at hAt'
                have hPar' : parentOf t'.ops idx1 = parent := by
                  unfold parentOf
                  rw [hAt']
                  rfl
                have hDep' : depthOf t'.ops idx1 = depth := by
                  unfold depthOf
                  rw [hAt']
                have hKind' : kindOf t'.ops idx1 = .container := by
                  unfold kindOf
                  rw [hAt']
                  rfl
                have hCs' : csOf t'.ops idx1 = idx1 + 1 := by
                  unfold csOf
                  rw [hAt']
                  show t1.ops.length = idx1 + 1
                  omega
                have hCe' : ceOf t'.ops idx1 = t2.ops.length := by
                  unfold ceOf
                  rw [hAt']
                have hsegT : SegWF t'.ops (idx1 + 1) t2.ops.length
                    (idx1 : Int) (depth + 1) := by
                  have hcg : SegWF t'.ops t1.ops.length t2.ops.length
                      (idx1 : Int) (depth + 1) := by
                    refine SegWF_congr t2.ops t'.ops t1.ops.length
                      t2.ops.length (idx1 : Int) (depth + 1) hseg2 ?_
                      (by omega)
                    intro j hs hj
                    rw [htops]
                    exact opAt_set_ne t2.ops idx1 j _ (by omega)
                  have heq : t1.ops.length = idx1 + 1 := by omega
                  rw [heq] at hcg
                  exact hcg
                have hblk : BlockWF t'.ops idx1 t2.ops.length parent depth :=
                  containerBlockWF t'.ops idx1 t2.ops.length parent depth
                    (by omega) hPar' hDep' hKind' hCs' hCe' hsegT
                refine ⟨hidx1, by omega, ?_, ?_⟩
                · intro j hj
                  rw [htops, opAt_set_ne t2.ops idx1 j _ (by omega),
                    hag2 j (by omega), hops1]
                  exact opAt_append_lt t.ops _ j hj
                · rw [hlen', ← hidx1]
                  exact hblk
        | col gap f border children =>
            simp only [compileN] at hok
            rcases hAdd : addOp t (containerCore gap false f border parent)
              none none none depth with ⟨t1, idx1⟩
            rw [hAdd] at hok
            simp only [Bind.bind, Except.bind] at hok
            cases hCL : compileList children (idx1 : Int) (depth + 1) eb t1
              with
            | error e =>
                rw [hCL] at hok
                simp only [Bind.bind, Except.bind] at hok
                exact Except.noConfusion hok
            | ok t2 =>
                rw [hCL] at hok
                simp only [Bind.bind, Except.bind] at hok
                obtain ⟨h1, h2⟩ := ok_pair_eq hok
                have hT : setChildRange t2 idx1 t1.ops.length t2.ops.length
                    = t' := h1
                have hI : idx1 = idx := h2
                subst hI
                have hidx1 : idx1 = t.ops.length := by
                  rw [← addOp_idx t (containerCore gap false f border parent)
                    none none none depth, hAdd]
                have hops1 : t1.ops = t.ops
                    ++ [Op.mk { containerCore gap false f border parent with
                          depth := depth } none none none] := by
                  rw [← addOp_ops t (containerCore gap false f border parent)
                    none none none depth, hAdd]
                have hlen1 : t1.ops.length = t.ops.length + 1 := by
                  rw [hops1]
                  simp
                have hszc : sizeOf children ≤ fuel := by
                  have h := hsz
                  simp at h
                  omega
                have hplt1 : (idx1 : Int) < (t1.ops.length : Int) := by
                  rw [hlen1, hidx1]
                  exact_mod_cast Nat.lt_succ_self _
                obtain ⟨hle2, hag2, hseg2⟩ :=
                  ihL children (idx1 : Int) (depth + 1) eb t1 t2 hszc hplt1
                    hCL
                have htops := setChildRange_ops t2 idx1 t1.ops.length
                  t2.ops.length
                rw [hT] at htops
                have hlen' : t'.ops.length = t2.ops.length := by
                  rw [htops]
                  exact List.length_set t2.ops idx1 _
                have hidxlt2 : idx1 < t2.ops.length := by omega
                have hAt2 : opAt t2.ops idx1
                    = { containerCore gap false f border parent with
                        depth := depth } := by
                  rw [hag2 idx1 (by omega), hops1, hidx1]
                  exact opAt_append_self t.ops _
                have hAt' : opAt t'.ops idx1
                    = { opAt t2.ops idx1 with
                        childStart := t1.ops.length,
                        childEnd := t2.ops.length } := by
                  rw [htops]
                  exact opAt_set_self t2.ops idx1 _ hidxlt2
                rw [hAt2] at hAt'
                have hPar' : parentOf t'.ops idx1 = parent := by
                  unfold parentOf
                  rw [hAt']
                  rfl
                have hDep' : depthOf t'.ops idx1 = depth := by
                  unfold depthOf
                  rw [hAt']
                have hKind' : kindOf t'.ops idx1 = .container := by
                  unfold kindOf
                  rw [hAt']
                  rfl
                have hCs' : csOf t'.ops idx1 = idx1 + 1 := by
                  unfold csOf
                  rw [hAt']
                  show t1.ops.length = idx1 + 1
                  omega
                have hCe' : ceOf t'.ops idx1 = t2.ops.length := by
                  unfold ceOf
                  rw [hAt']
                have hsegT : SegWF t'.ops (idx1 + 1) t2.ops.length
                    (idx1 : Int) (depth + 1) := by
                  have hcg : SegWF t'.ops t1.ops.length t2.ops.length
                      (idx1 : Int) (depth + 1) := by
                    refine SegWF_congr t2.ops t'.ops t1.ops.length
                      t2.ops.length (idx1 : Int) (depth + 1) hseg2 ?_
                      (by omega)
                    intro j hs hj
                    rw [htops]
                    exact opAt_set_ne t2.ops idx1 j _ (by omega)
                  have heq : t1.ops.length = idx1 + 1 := by omega
                  rw [heq] at hcg
                  exact hcg
                have hblk : BlockWF t'.ops idx1 t2.ops.length parent depth :=
                  containerBlockWF t'.ops idx1 t2.ops.length parent depth
                    (by omega) hPar' hDep' hKind' hCs' hCe' hsegT
                refine ⟨hidx1, by omega, ?_, ?_⟩
                · intro j hj
                  rw [htops, opAt_set_ne t2.ops idx1 j _ (by omega),
                    hag2 j (by omega), hops1]
                  exact opAt_append_lt t.ops _ j hj
                · rw [hlen', ← hidx1]
                  exact hblk
      · intro children parent depth eb t t' hsz hplt hok
        cases children with
        | nil =>
            simp only [compileList] at hok
            injection hok with hok
            subst hok
            exact ⟨le_refl _, fun j hj => rfl,
              SegWF.emptySeg t.ops t.ops.length parent depth (le_refl _)
                hplt⟩
        | cons c rest =>
            simp only [compileList] at hok
            cases hN : compileN c parent depth eb t with
            | error e =>
                rw [hN] at hok
                simp only [Bind.bind, Except.bind] at hok
                exact Except.noConfusion hok
            | ok p =>
                obtain ⟨tm, i1⟩ := p
                rw [hN] at hok
                simp only [Bind.bind, Except.bind] at hok
                have hszs : sizeOf c ≤ fuel ∧ sizeOf rest ≤ fuel := by
                  have h := hsz
                  simp at h
                  omega
                obtain ⟨_, hlt, hagN, hblkN⟩ :=
                  ihN c parent depth eb t tm i1 hszs.1 hN
                have hplt2 : parent < (tm.ops.length : Int) := by
                  have := hplt
                  omega
                obtain ⟨hleL, hagL, hsegL⟩ :=
                  ihL rest parent depth eb tm t' hszs.2 hplt2 hok
                refine ⟨by omega,
                  agreeBelow_trans t.ops tm.ops t'.ops t.ops.length
                    tm.ops.length hagN hagL (by omega), ?_⟩
                have hblk' : BlockWF t'.ops t.ops.length tm.ops.length
                    parent depth :=
                  BlockWF_congr tm.ops t'.ops t.ops.length tm.ops.length
                    parent depth hblkN hagL hleL
                exact SegWF.consBlock t'.ops t.ops.length tm.ops.length
                  t'.ops.length parent depth hblk' hsegL hplt

theorem Build_blockWF (node : Node) (t : Template)
    (hb : Build node = .ok t) : BlockWF t.ops 0 t.ops.length (-1) 0 := by
  unfold Build at hb
  cases hN : compileN node (-1) 0 none
      (Template.mk [] (List.replicate 16 []) 0) with
  | error e =>
      rw [hN] at hb
      simp only [Bind.bind, Except.bind] at hb
      exact Except.noConfusion hb
  | ok p =>
      obtain ⟨t0, i0⟩ := p
      rw [hN] at hb
      simp only [Bind.bind, Except.bind] at hb
      obtain ⟨-, -, -, hblk⟩ := (compile_main (sizeOf node)).1 node (-1) 0
        none (Template.mk [] (List.replicate 16 []) 0) t0 i0 (le_refl _) hN
      have htops : t.ops = t0.ops := by
        generalize (if t0.maxDepth < 0 then t0.maxDepth
          else trimMaxNat t0.byDepth t0.maxDepth.toNat) = m at hb
        split at hb <;>
          · simp only [pure, Except.pure] at hb
            injection hb with hb
            rw [← hb]
            rfl
      rw [htops]
      have hz : (Template.mk ([] : List Op)
          (List.replicate 16 ([] : List Nat)) 0).ops.length = 0 := rfl
      rw [hz] at hblk
      exact hblk

theorem isDescF_mono (ops : List Op) :
    ∀ f1 f2 j i, f1 ≤ f2 → isDescF ops f1 j i = true →
      isDescF ops f2 j i = true := by
  intro f1
  induction f1 with
  | zero =>
      intro f2 j i _ h
      simp [isDescF] at h
  | succ f1 ih =>
      intro f2 j i hle h
      obtain ⟨f2', rfl⟩ : ∃ f2', f2 = f2' + 1 := ⟨f2 - 1, by omega⟩
      simp only [isDescF] at h ⊢
      by_cases hp : parentOf ops j = (i : Int)
      · rw [if_pos hp]
      · rw [if_neg hp] at h ⊢
        by_cases hg : parentOf ops j < 0 ∨ (j : Int) ≤ parentOf ops j
        · rw [if_pos hg] at h
          exact absurd h (by simp)
        · rw [if_neg hg] at h ⊢
          exact ih f2' _ i (by omega) h

theorem Desc_isDesc (ops : List Op) (j i : Nat) (h : Desc ops j i) :
    isDesc ops j i := by
  induction h with
  | direct j i hpar =>
      unfold isDesc
      simp only [isDescF]
      rw [if_pos hpar]
  | step j p i hpar hlt hd ih =>
      unfold isDesc at ih ⊢
      simp only [isDescF]
      by_cases hpi : parentOf ops j = (i : Int)
      · rw [if_pos hpi]
      · rw [if_neg hpi,
          if_neg (show ¬(parentOf ops j < 0 ∨ (j : Int) ≤ parentOf ops j) by
            rw [hpar]
            omega)]
        rw [hpar, Int.toNat_natCast]
        exact isDescF_mono ops (p + 1) j p i (by omega) ih

theorem isDescF_Desc (ops : List Op) :
    ∀ fuel j i, isDescF ops fuel j i = true → Desc ops j i := by
  intro fuel
  induction fuel with
  | zero =>
      intro j i h
      simp [isDescF] at h
  | succ fuel ih =>
      intro j i h
      simp only [isDescF] at h
      by_cases hpi : parentOf ops j = (i : Int)
      · exact Desc.direct j i hpi
      · rw [if_neg hpi] at h
        by_cases hg : parentOf ops j < 0 ∨ (j : Int) ≤ parentOf ops j
        · rw [if_pos hg] at h
          exact absurd h (by simp)
        · rw [if_neg hg] at h
          push_neg at hg
          refine Desc.step j (parentOf ops j).toNat i ?_ ?_ (ih _ i h)
          · exact (Int.toNat_of_nonneg hg.1).symm
          · omega

theorem Desc_in_range (ops : List Op) (len : Nat)
    (hw : BlockWF ops 0 len (-1) 0) (j i : Nat) (hd : Desc ops j i) :
    j < len → i < j ∧ j < ceOf ops i ∧ kindOf ops i = .container := by
  induction hd with
  | direct j i hpar =>
      intro hj
      have hj0 : 0 < j := by
        rcases Nat.eq_zero_or_pos j with h0 | h0
        · exfalso
          rw [h0, hw.root_parent] at hpar
          omega
        · exact h0
      obtain ⟨hkp, hcsp, hcep, hdp⟩ := hw.par_spec j hj0 hj i hpar
      have hhi := hw.par_hi j hj0 hj
      rw [hpar] at hhi
      exact ⟨by exact_mod_cast hhi, hcep, hkp⟩
  | step j p i hpar hlt hd ih =>
      intro hj
      obtain ⟨hip, hpce, hki⟩ := ih (by omega)
      have hj0 : 0 < j := by omega
      obtain ⟨hkp, hcsp, hcep, hdp⟩ := hw.par_spec j hj0 hj p hpar
      have hnest := hw.nest i (Nat.zero_le i) (by omega) hki p hip hpce hkp
      exact ⟨by omega, by omega, hki⟩

theorem range_Desc (ops : List Op) (len : Nat)
    (hw : BlockWF ops 0 len (-1) 0) (i : Nat) :
    ∀ j, j < len → i < j → j < ceOf ops i → Desc ops j i := by
  intro j
  induction j using Nat.strong_induction_on with
  | _ j ihj =>
      intro hj hij hce
      have hki : kindOf ops i = .container := by
        by_contra hk
        have := hw.leaf_range i (Nat.zero_le i) (by omega) hk
        omega
      have hbp := hw.cont_block_par i (Nat.zero_le i) (by omega) hki j hij
        hce
      have hhi := hw.par_hi j (by omega) hj
      have hpar : parentOf ops j = ((parentOf ops j).toNat : Int) :=
        (Int.toNat_of_nonneg (by omega)).symm
      have hip : i ≤ (parentOf ops j).toNat := by omega
      have hplt : (parentOf ops j).toNat < j := by omega
      rcases Nat.eq_or_lt_of_le hip with he | hlt2
      · refine Desc.direct j i ?_
        rw [hpar, ← he]
      · exact Desc.step j (parentOf ops j).toNat i hpar hplt
          (ihj (parentOf ops j).toNat hplt (by omega) hlt2 (by omega))

/-- C1: after `Build` compiles any declarative tree, for every op index `i`
and every index `j` of the resulting ops array, `j` is a descendant of `i`
(the parent chain from `j` reaches `i`) exactly when `j` lies in the
contiguous range `[i + 1, childEnd i)`; and every direct child `j` of `i`
(an op whose `parent` is `i`) lies inside `[childStart i, childEnd i)` and
has depth equal to `i`'s depth plus 1. -/
theorem build_tree_invariant (node : Node) (t : Template)
    (hb : Build node = .ok t) (i j : Nat)
    (_hi : i < t.ops.length) (hj : j < t.ops.length) :
    (isDesc t.ops j i ↔ (i < j ∧ j < ceOf t.ops i)) ∧
    (parentOf t.ops j = (i : Int) →
      csOf t.ops i ≤ j ∧ j < ceOf t.ops i ∧
        depthOf t.ops j = depthOf t.ops i + 1) := by
  have hw := Build_blockWF node t hb
  constructor
  · constructor
    · intro hd
      have hD := isDescF_Desc t.ops (j + 1) j i hd
      have := Desc_in_range t.ops t.ops.length hw j i hD hj
      exact ⟨this.1, this.2.1⟩
    · rintro ⟨h1, h2⟩
      exact Desc_isDesc t.ops j i
        (range_Desc t.ops t.ops.length hw i j hj h1 h2)
  · intro hpar
    have hj0 : 0 < j := by
      rcases Nat.eq_zero_or_pos j with h0 | h0
      · exfalso
        rw [h0, hw.root_parent] at hpar
        omega
      · exact h0
    obtain ⟨_, hcs, hce, hdp⟩ := hw.par_spec j hj0 hj i hpar
    exact ⟨hcs, hce, hdp⟩

/-- The windowing clamp is idempotent: clamping an already clamped offset
changes nothing. -/
theorem ensureVisible_idem (mv sel off : Int) :
    ensureVisible mv sel (ensureVisible mv sel off)
      = ensureVisible mv sel off := by
  unfold ensureVisible
  split_ifs <;> omega

/-- Running the selection-list layout a second time (with any intervening
geometry) leaves the caller-owned windowing state unchanged and recomputes
the same height: the one caller-state mutation of the layout phase is a
stable clamp. -/
theorem layoutSelList_idem (env : Env) (op : OpCore) (g g' : Geom)
    (sl : SlState) :
    ((layoutSelList env op g' (layoutSelList env op g sl).2).2
        = (layoutSelList env op g sl).2)
      ∧ ((layoutSelList env op g' (layoutSelList env op g sl).2).1.h
        = (layoutSelList env op g sl).1.h) := by
  constructor
  · unfold layoutSelList
    cases hsel : op.selectedPtr with
    | none => rfl
    | some a => simp [hsel, ensureVisible_idem]
  · rfl

/-- Witness for `build_tree_invariant`: `Build` on a row with one text
child yields `tW`, whose child (index 1) is a descendant of the container
(index 0) with the bracketed range and depth relation. -/
theorem build_tree_invariant_witness :
    (isDesc tW.ops 1 0 ↔ (0 < 1 ∧ 1 < ceOf tW.ops 0)) ∧
    (parentOf tW.ops 1 = ((0 : Nat) : Int) →
      csOf tW.ops 0 ≤ 1 ∧ 1 < ceOf tW.ops 0 ∧
        depthOf tW.ops 1 = depthOf tW.ops 0 + 1) :=
  build_tree_invariant nodeW tW rfl 0 1 (by decide) (by decide)

end Theorems

end Forme
